import Mathlib

/-!
Verification development for the `runfile` interpreter (Rust sources under
`src/`).  The four pipeline phases — `TokenizePhase` (src/phases/tokenize.rs),
`ParsePhase` (src/phases/parse.rs), `ResolvePhase` (src/phases/resolve.rs) and
`RunPhase` (src/phases/run.rs) — together with the CLI dispatch in
`src/main.rs` / `src/pipeline.rs` are shallowly embedded below.  Rust strings
are modelled as `List Char`; `&str::len()` (a UTF-8 byte count) is modelled by
`byteLen`, and every fallible Rust function returning `anyhow::Result` is
modelled in `Except Str` carrying the exact message text the source formats.
-/

set_option autoImplicit false

/-- Rust strings are modelled as lists of characters. -/
abbrev Str := List Char

/-- Shorthand turning a Lean string literal into the `List Char` model. -/
def str (s : String) : Str := s.data

/-- Models Rust `char::is_whitespace` restricted to the ASCII whitespace
characters that can occur in a Runfile (space, tab, newline, carriage
return); all inputs appearing in the claims are ASCII. -/
def wsChar (c : Char) : Bool :=
  c = ' ' || c = '\t' || c = '\n' || c = '\r'

/-- Models `str::trim_start` (drop leading whitespace). -/
def trimStart (l : Str) : Str := l.dropWhile wsChar

/-- Models `str::trim_end` (drop trailing whitespace). -/
def trimEnd (l : Str) : Str := (l.reverse.dropWhile wsChar).reverse

/-- Models `str::trim`. -/
def trim (l : Str) : Str := trimEnd (trimStart l)

/-- Models `str::starts_with` (for both string and char patterns). -/
def startsWith : Str → Str → Bool
  | [], _ => true
  | _ :: _, [] => false
  | p :: ps, c :: cs => p = c && startsWith ps cs

/-- Models `str::ends_with`. -/
def endsWith (suf l : Str) : Bool := startsWith suf.reverse l.reverse

/-- Models `str::contains` with a char pattern. -/
def hasChar (ch : Char) : Str → Bool
  | [] => false
  | c :: cs => c = ch || hasChar ch cs

/-- Models `str::contains` with a string pattern. -/
def hasSub (needle : Str) : Str → Bool
  | [] => needle.isEmpty
  | c :: cs => startsWith needle (c :: cs) || hasSub needle cs

/-- Models `str::find` with a string pattern, returning the match offset. -/
def findSub (needle : Str) : Str → Option Nat
  | [] => if needle.isEmpty then some 0 else none
  | c :: cs =>
    if startsWith needle (c :: cs) then some 0
    else (findSub needle cs).map (· + 1)

/-- Models `str::strip_prefix(p).unwrap_or(original)`: drop the prefix when
present, otherwise return the input unchanged. -/
def stripPreIf (p l : Str) : Str :=
  if startsWith p l then l.drop p.length else l

/-- Models `str::strip_suffix(s).unwrap_or(original)`. -/
def stripSufIf (s l : Str) : Str :=
  if endsWith s l then l.take (l.length - s.length) else l

/-- Models `str::split` on a char separator (keeps empty pieces, as Rust
does). -/
def splitOnChar (sep : Char) : Str → List Str
  | [] => [[]]
  | c :: cs =>
    if c = sep then [] :: splitOnChar sep cs
    else
      match splitOnChar sep cs with
      | [] => [[c]]
      | t :: ts => (c :: t) :: ts

/-- Models `str::splitn(2, sep)`: at most two pieces, the second keeping any
further separators. -/
def splitTwoOn (sep : Char) (l : Str) : List Str :=
  if hasChar sep l then
    [l.takeWhile (fun c => !(c = sep)), (l.dropWhile (fun c => !(c = sep))).drop 1]
  else [l]

/-- Fuel-driven worker for `splitWs`; the fuel bounds the number of produced
tokens so the kernel can evaluate it. -/
def splitWsFuel : Nat → Str → List Str
  | 0, _ => []
  | _ + 1, [] => []
  | fuel + 1, c :: cs =>
    if wsChar c then splitWsFuel fuel cs
    else
      (c :: cs.takeWhile (fun d => !wsChar d)) ::
        splitWsFuel fuel (cs.dropWhile (fun d => !wsChar d))

/-- Models `str::split_whitespace` (whitespace-separated tokens, no empty
pieces). -/
def splitWs (l : Str) : List Str := splitWsFuel (l.length + 1) l

/-- Models `[String]::join(sep)`. -/
def joinSep (sep : Str) : List Str → Str
  | [] => []
  | [x] => x
  | x :: xs => x ++ sep ++ joinSep sep xs

/-- Models Rust `String::to_uppercase` on the ASCII strings the claims use. -/
def upperStr (l : Str) : Str := l.map Char.toUpper

/-- UTF-8 encoded size of one scalar value, in bytes. -/
def utf8Size (c : Char) : Nat :=
  if c.toNat < 0x80 then 1
  else if c.toNat < 0x800 then 2
  else if c.toNat < 0x10000 then 3
  else 4

/-- Models Rust `str::len()`: the UTF-8 byte length. -/
def byteLen (l : Str) : Nat := (l.map utf8Size).sum

/-- Helper recognising whether an `Except` carries a success value. -/
def isOkE {ε α : Type} : Except ε α → Bool
  | .ok _ => true
  | .error _ => false

/-! ## TokenizePhase (src/phases/tokenize.rs) -/

/-- Inline argument payload `(name, optional, is_varargs)` of a command
header, mirroring the `InlineArg` type alias of tokenize.rs. -/
abbrev InlineArg := Str × Bool × Bool

/-- Inline flag payload `(name, short, takes_value, type_hint)` of a command
header, mirroring the `InlineFlag` type alias of tokenize.rs. -/
abbrev InlineFlag := Str × Option Char × Bool × Option Str

/-- The lexer's token type (`Token` in tokenize.rs). -/
inductive Token where
  | GroupHeader (name : Str)
  | CommandName (name : List Str) (inline_args : List InlineArg)
      (inline_flags : List InlineFlag) (comment : Option Str)
  | Argument (name : Str) (optional : Bool) (is_varargs : Bool) (comment : Option Str)
  | Flag (long_name : Str) (short : Option Char) (takes_value : Bool)
      (type_hint : Option Str) (comment : Option Str)
  | ScriptLine (content : Str)
  | Comment (content : Str)
deriving DecidableEq, Repr

/-- Models `TokenizePhase::is_separator_line`: after trimming, `# ` followed
by a non-empty run of dashes only (`trimmed.len() > 2` is a byte length). -/
def isSeparatorLine (line : Str) : Bool :=
  let t := trim line
  startsWith (str "# ") t && decide (byteLen t > 2) && (t.drop 2).all (fun c => decide (c = '-'))

/-- The alias-run scan of `TokenizePhase::is_command_line`: how many leading
whitespace-tokens form the comma-joined alias list (state `prevComma` mirrors
`prev_had_comma`, `i` the loop counter). -/
def aliasRunAux : List Str → Nat → Bool → Nat
  | [], i, _ => i
  | p :: rest, i, prevComma =>
    if startsWith ['-'] p || hasChar '?' p || hasSub (str "...") p || hasChar '=' p then i
    else if hasChar ',' p then aliasRunAux rest (i + 1) true
    else if prevComma then aliasRunAux rest (i + 1) false
    else if i = 0 then aliasRunAux rest (i + 1) false
    else i

/-- Models `TokenizePhase::is_command_line`. -/
def isCommandLine (line : Str) : Bool :=
  let t := trim line
  if startsWith ['#'] t || startsWith (str "echo") t || startsWith (str "#!/") t then false
  else if startsWith (str "  ") line then false
  else
    let commandLine := if endsWith [':'] t then trim (stripSufIf [':'] t) else t
    if commandLine.isEmpty then true
    else
      let parts := splitWs commandLine
      if parts.isEmpty then false
      else decide (aliasRunAux parts 0 false > 0)

/-- Models `TokenizePhase::parse_flag_name` (which returns `Ok` on every
path; the `Result` is kept for fidelity). -/
def parseFlagName (flag : Str) : Except Str (Str × Bool × Option Str) :=
  let f := stripPreIf (str "--") flag
  if hasChar '=' f then
    match splitOnChar '=' f with
    | [name, hint] =>
      let th : Option Str :=
        if startsWith ['<'] hint then
          let h1 := hint.drop 1
          if endsWith ['>'] h1 then some (h1.take (h1.length - 1)) else none
        else none
      .ok (name, true, th)
    | _ => .ok (f, false, none)
  else .ok (f, false, none)

/-- The alias-collecting loop of `TokenizePhase::parse_command_line`; returns
the aliases and the remaining parameter tokens. -/
def parseCommandLineParts : List Str → List Str → Bool → (List Str × List Str)
  | [], acc, _ => (acc, [])
  | p :: rest, acc, prevComma =>
    if startsWith ['-'] p || hasChar '?' p || hasSub (str "...") p || hasChar '=' p then
      (acc, p :: rest)
    else if hasChar ',' p then
      let pieces := ((splitOnChar ',' p).map trim).filter (fun a => !a.isEmpty)
      parseCommandLineParts rest (acc ++ pieces) true
    else if prevComma then parseCommandLineParts rest (acc ++ [p]) false
    else if acc.isEmpty then parseCommandLineParts rest (acc ++ [p]) false
    else (acc, p :: rest)

/-- Models `TokenizePhase::parse_command_line`. -/
def parseCommandLine (line : Str) : Except Str (List Str × List Str) :=
  let r := parseCommandLineParts (splitWs line) [] false
  if r.1.isEmpty then .error (str "Command must have at least one name")
  else .ok r

/-- Fuel-driven worker for `parseArgsAndFlags` (each step consumes one or
two tokens and one unit of fuel, so `length + 1` fuel always suffices and the
kernel can evaluate it). -/
def parseArgsAndFlagsFuel : Nat → List Str → Except Str (List InlineArg × List InlineFlag)
  | 0, _ => .ok ([], [])
  | _ + 1, [] => .ok ([], [])
  | fuel + 1, p :: rest =>
    if startsWith (str "...") p || endsWith (str "...") p then
      let argName :=
        if startsWith (str "...") p then stripPreIf (str "...") p else stripSufIf (str "...") p
      match parseArgsAndFlagsFuel fuel rest with
      | .error e => .error e
      | .ok (args, flags) => .ok ((argName, true, true) :: args, flags)
    else if startsWith ['-'] p then
      match rest with
      | long :: rest2 =>
        if endsWith [','] p then
          let shortPart := stripSufIf [','] p
          let short : Option Char :=
            if startsWith ['-'] shortPart then (shortPart.drop 1).head? else none
          match parseFlagName long with
          | .error e => .error e
          | .ok (longName, takesValue, typeHint) =>
            match parseArgsAndFlagsFuel fuel rest2 with
            | .error e => .error e
            | .ok (args, flags) => .ok (args, (longName, short, takesValue, typeHint) :: flags)
        else if startsWith (str "--") p then
          match parseFlagName p with
          | .error e => .error e
          | .ok (longName, takesValue, typeHint) =>
            match parseArgsAndFlagsFuel fuel (long :: rest2) with
            | .error e => .error e
            | .ok (args, flags) => .ok (args, (longName, none, takesValue, typeHint) :: flags)
        else if byteLen p = 2 then
          match (p.drop 1).head? with
          | some c =>
            match parseArgsAndFlagsFuel fuel (long :: rest2) with
            | .error e => .error e
            | .ok (args, flags) => .ok (args, ([c], some c, false, none) :: flags)
          | none => parseArgsAndFlagsFuel fuel (long :: rest2)
        else parseArgsAndFlagsFuel fuel (long :: rest2)
      | [] =>
        if startsWith (str "--") p then
          match parseFlagName p with
          | .error e => .error e
          | .ok (longName, takesValue, typeHint) => .ok ([], [(longName, none, takesValue, typeHint)])
        else if byteLen p = 2 then
          match (p.drop 1).head? with
          | some c => .ok ([], [([c], some c, false, none)])
          | none => .ok ([], [])
        else .ok ([], [])
    else
      let q := if endsWith ['?'] p then (stripSufIf ['?'] p, true) else (p, false)
      match parseArgsAndFlagsFuel fuel rest with
      | .error e => .error e
      | .ok (args, flags) => .ok ((q.1, q.2, false) :: args, flags)

/-- Models `TokenizePhase::parse_args_and_flags`. -/
def parseArgsAndFlags (parts : List Str) : Except Str (List InlineArg × List InlineFlag) :=
  parseArgsAndFlagsFuel (parts.length + 1) parts

/-- Models the trailing comment-or-script section of
`TokenizePhase::parse_line` (every fallthrough path ends here). -/
def parseCommentOrScript (line : Str) : Except Str (Option Token) :=
  let t := trim line
  if startsWith ['#'] t then
    if startsWith (str "#!/") t then .ok (some (.ScriptLine line))
    else .ok (some (.Comment t))
  else .ok (some (.ScriptLine line))

/-- Models the command-header arm shared by `parse_line` and
`parse_line_with_comment` (`trimmed` is the trimmed line). -/
def parseCommandToken (trimmed : Str) (comment : Option Str) : Except Str (Option Token) :=
  if hasSub (str " # ") trimmed then
    .error (str "Command comments must be on the line above the command, not on the same line")
  else
    let commandLine := if endsWith [':'] trimmed then trim (stripSufIf [':'] trimmed) else trimmed
    match parseCommandLine commandLine with
    | .error e => .error e
    | .ok (aliases, argsAndFlags) =>
      match (if argsAndFlags.isEmpty then .ok ([], []) else parseArgsAndFlags argsAndFlags :
          Except Str (List InlineArg × List InlineFlag)) with
      | .error e => .error e
      | .ok (ia, ifl) => .ok (some (.CommandName aliases ia ifl comment))

/-- The body of the indented-parameter branch of `TokenizePhase::parse_line`
(after the `" # "` split has produced `contentPart` and `comment`). -/
def parseIndentedContent (line contentPart : Str) (comment : Option Str) :
    Except Str (Option Token) :=
  if startsWith (str "#!/") contentPart then .ok (some (.ScriptLine line))
  else if startsWith ['-'] contentPart then
    let parts := (splitOnChar ',' contentPart).map trim
    if parts.length = 2 then
      let short : Option Char :=
        if startsWith ['-'] (parts.getD 0 []) then ((parts.getD 0 []).drop 1).head? else none
      match parseFlagName (stripSufIf [':'] (parts.getD 1 [])) with
      | .error e => .error e
      | .ok (longName, takesValue, typeHint) =>
        .ok (some (.Flag longName short takesValue typeHint comment))
    else if startsWith (str "--") contentPart then
      match parseFlagName (stripSufIf [':'] contentPart) with
      | .error e => .error e
      | .ok (longName, takesValue, typeHint) =>
        .ok (some (.Flag longName none takesValue typeHint comment))
    else parseCommentOrScript line
  else if !hasChar ' ' contentPart && !contentPart.isEmpty then
    let clean := stripSufIf [':'] contentPart
    if startsWith (str "...") clean then
      .ok (some (.Argument (stripPreIf (str "...") clean) true true comment))
    else if endsWith (str "...") clean then
      .ok (some (.Argument (stripSufIf (str "...") clean) true true comment))
    else if endsWith ['?'] clean then
      .ok (some (.Argument (stripSufIf ['?'] clean) true false comment))
    else .ok (some (.Argument clean false false comment))
  else parseCommentOrScript line

/-- Models `TokenizePhase::parse_line`. -/
def parseLine (line : Str) : Except Str (Option Token) :=
  let trimmed := trim line
  if trimmed.isEmpty then .ok none
  else if isCommandLine line then parseCommandToken trimmed none
  else if startsWith (str "  ") line && !startsWith (str "   ") line
      && (!startsWith ['#'] trimmed || startsWith (str "#!/") trimmed) then
    let pc : Str × Option Str :=
      match findSub (str " # ") trimmed with
      | some k => (trim (trimmed.take k), some (trim (stripPreIf ['#'] (trim (trimmed.drop k)))))
      | none => (trimmed, none)
    parseIndentedContent line pc.1 pc.2
  else parseCommentOrScript line

/-- Models `TokenizePhase::parse_line_with_comment`. -/
def parseLineWithComment (line : Str) (comment : Option Str) : Except Str (Option Token) :=
  let trimmed := trim line
  if trimmed.isEmpty then .ok none
  else if isCommandLine line then parseCommandToken trimmed comment
  else parseLine line

/-- Models the upward comment scan of `TokenizePhase::tokenize` (the loop
`while j > 0` before a command line at index `j`): stripped comment texts,
top to bottom. -/
def lookBehind (lines : List Str) : Nat → List Str
  | 0 => []
  | j + 1 =>
    let prev := trim (lines.getD j [])
    if startsWith ['#'] prev then
      if isSeparatorLine prev then lookBehind lines j
      else
        let isGroupName :=
          decide (0 < j) && decide (j + 1 < lines.length) &&
            isSeparatorLine (trim (lines.getD (j - 1) [])) &&
            isSeparatorLine (trim (lines.getD (j + 1) []))
        if isGroupName then lookBehind lines j
        else lookBehind lines j ++ [trim (stripPreIf ['#'] prev)]
    else []

/-- The attached comment for a command line at index `i` (join of
`lookBehind` with single spaces, `None` when empty). -/
def lookBehindComment (lines : List Str) (i : Nat) : Option Str :=
  let cs := lookBehind lines i
  if cs.isEmpty then none else some (joinSep [' '] cs)

/-- Models the forward scan of `TokenizePhase::tokenize` that decides whether
a comment line is followed (across blanks and further comments) by an
upcoming command line. -/
def lookAheadCmd (lines : List Str) : Nat → Nat → Bool
  | 0, _ => false
  | fuel + 1, j =>
    if j < lines.length then
      let nextLine := trim (lines.getD j [])
      if nextLine.isEmpty then lookAheadCmd lines fuel (j + 1)
      else if startsWith ['#'] nextLine && !isSeparatorLine nextLine then
        lookAheadCmd lines fuel (j + 1)
      else if isCommandLine nextLine then true
      else false
    else false

/-- The main loop of `TokenizePhase::tokenize`, fuel-driven so the kernel can
evaluate it (the fuel bounds the iteration count; `i` advances by 1 or 3 each
step, so `lines.length` fuel always suffices). -/
def tokLoop (lines : List Str) : Nat → Nat → Except Str (List Token)
  | 0, _ => .ok []
  | fuel + 1, i =>
    if i < lines.length then
      let line := lines.getD i []
      let trimmed := trim line
      if isSeparatorLine trimmed && decide (i + 2 < lines.length)
          && startsWith (str "# ") (trim (lines.getD (i + 1) []))
          && isSeparatorLine (trim (lines.getD (i + 2) [])) then
        let groupName := trim (stripPreIf (str "# ") (trim (lines.getD (i + 1) [])))
        (tokLoop lines fuel (i + 3)).map (Token.GroupHeader groupName :: ·)
      else if isCommandLine line then
        match parseLineWithComment line (lookBehindComment lines i) with
        | .error e => .error e
        | .ok none => tokLoop lines fuel (i + 1)
        | .ok (some t) => (tokLoop lines fuel (i + 1)).map (t :: ·)
      else if startsWith ['#'] trimmed && !isSeparatorLine trimmed
          && !startsWith (str "#!/") trimmed && lookAheadCmd lines lines.length (i + 1) then
        tokLoop lines fuel (i + 1)
      else
        match parseLine line with
        | .error e => .error e
        | .ok none => tokLoop lines fuel (i + 1)
        | .ok (some t) => (tokLoop lines fuel (i + 1)).map (t :: ·)
    else .ok []

/-- Strip one trailing carriage return (for `\r\n` line endings). -/
def stripCR (l : Str) : Str :=
  if endsWith ['\r'] l then l.take (l.length - 1) else l

/-- Models Rust `str::lines()`: split on `\n`, drop the optional final empty
piece, and strip a `\r` from each piece that preceded a `\n`. -/
def rustLines (content : Str) : List Str :=
  if content.isEmpty then []
  else
    let parts := splitOnChar '\n' content
    let body := parts.dropLast.map stripCR
    match parts.getLast? with
    | some [] => body
    | some l => body ++ [l]
    | none => []

/-- Models `TokenizePhase::tokenize`. -/
def tokenize (content : Str) : Except Str (List Token) :=
  tokLoop (rustLines content) (rustLines content).length 0

/-! ## ParsePhase (src/phases/parse.rs) -/

/-- A declared positional argument (`Argument` in parse.rs). -/
structure Argument where
  name : Str
  optional : Bool
  is_varargs : Bool
  description : Option Str
deriving DecidableEq, Repr

/-- A declared flag (`Flag` in parse.rs; renamed since Mathlib already has a `Flag`). -/
structure CmdFlag where
  short : Option Char
  long : Str
  takes_value : Bool
  type_hint : Option Str
  description : Option Str
deriving DecidableEq, Repr

/-- A parsed command (`Command` in parse.rs). -/
structure Command where
  names : List Str
  description : Option Str
  group : Option Str
  args : List Argument
  flags : List CmdFlag
  script : Str
  shebang : Str
deriving DecidableEq, Repr

/-- A group label (`Group` in parse.rs; renamed since Mathlib already has a `Group`). -/
structure CmdGroup where
  name : Str
deriving DecidableEq, Repr

/-- The parsed document (`Runfile` in parse.rs). -/
structure Runfile where
  groups : List CmdGroup
  commands : List Command
deriving DecidableEq, Repr

/-- The running state of `ParsePhase::parse`: accumulated groups and
commands, the current group name, the command under construction and the
`in_script` flag. -/
structure ParseState where
  groups : List CmdGroup
  commands : List Command
  currentGroup : Option Str
  currentCommand : Option Command
  inScript : Bool
deriving DecidableEq, Repr

/-- Models appending one line to a command's accumulated script (`push('\n')`
when non-empty, then `push_str`). -/
def pushScript (scr add : Str) : Str :=
  if scr.isEmpty then add else scr ++ '\n' :: add

/-- One iteration of the token fold in `ParsePhase::parse`. -/
def parseStep (st : ParseState) (t : Token) : ParseState :=
  match t with
  | .GroupHeader name =>
    { groups := st.groups ++ [⟨name⟩]
      commands := st.commands ++ st.currentCommand.toList
      currentGroup := some name
      currentCommand := none
      inScript := false }
  | .CommandName name ia ifl comment =>
    { groups := st.groups
      commands := st.commands ++ st.currentCommand.toList
      currentGroup := st.currentGroup
      currentCommand := some
        ({ names := name
           description := comment
           group := st.currentGroup
           args := ia.map (fun a => ⟨a.1, a.2.1, a.2.2, none⟩)
           flags := ifl.map (fun f => ⟨f.2.1, f.1, f.2.2.1, f.2.2.2, none⟩)
           script := []
           shebang := str "#!/bin/sh" })
      inScript := false }
  | .Argument name opt varargs comment =>
    match st.currentCommand with
    | none => st
    | some cmd =>
      if !st.inScript then
        let cmd2 := { cmd with args := cmd.args ++ [⟨name, opt, varargs, comment⟩] }
        { st with currentCommand := some cmd2 }
      else
        let cmd2 := { cmd with script := pushScript cmd.script name }
        { st with currentCommand := some cmd2 }
  | .Flag longName short takesValue typeHint comment =>
    match st.currentCommand with
    | none => st
    | some cmd =>
      if !st.inScript then
        let cmd2 := { cmd with flags := cmd.flags ++ [⟨short, longName, takesValue, typeHint, comment⟩] }
        { st with currentCommand := some cmd2 }
      else
        let cmd2 :=
          { cmd with script := pushScript cmd.script ('-' :: short.getD ' ' :: str ", --" ++ longName) }
        { st with currentCommand := some cmd2 }
  | .ScriptLine content =>
    match st.currentCommand with
    | none => st
    | some cmd =>
      let cmd :=
        if !st.inScript && startsWith (str "#!") (trim content) then
          { cmd with shebang := trim content }
        else cmd
      { st with currentCommand := (some { cmd with script := pushScript cmd.script content }),
                inScript := true }
  | .Comment content =>
    match st.currentCommand with
    | none => st
    | some cmd =>
      { st with currentCommand := (some { cmd with script := pushScript cmd.script content }),
                inScript := true }

/-- The initial state of `ParsePhase::parse`. -/
def parseInit : ParseState := ⟨[], [], none, none, false⟩

/-- Models `ParsePhase::parse` (the source always returns `Ok`, so the
`Result` wrapper is omitted): fold the tokens, flush the final in-progress
command, and filter empty-named groups. -/
def parseTokens (ts : List Token) : Runfile :=
  let st := ts.foldl parseStep parseInit
  { groups := st.groups.filter (fun g => !g.name.isEmpty)
    commands := st.commands ++ st.currentCommand.toList }

/-! ## ResolvePhase (src/phases/resolve.rs) -/

/-- The argument loop of `ResolvePhase::validate_command`: duplicate-name
check plus varargs counting (`seen` models the `HashSet`, `i` the index,
returning `(varargs_count, varargs_position)`). -/
def argLoop : List Argument → List Str → Nat → Nat → Option Nat → Except Str (Nat × Option Nat)
  | [], _, _, cnt, pos => .ok (cnt, pos)
  | a :: rest, seen, i, cnt, pos =>
    if a.name ∈ seen then .error (str "Duplicate argument name: " ++ a.name)
    else
      argLoop rest (a.name :: seen) (i + 1) (if a.is_varargs then cnt + 1 else cnt)
        (if a.is_varargs then some i else pos)

/-- The flag loop of `ResolvePhase::validate_command`: long names and short
keys share one `seen` key set. -/
def flagLoop : List CmdFlag → List Str → Except Str Unit
  | [], _ => .ok ()
  | f :: rest, seen =>
    if f.long ∈ seen then .error (str "Duplicate flag name: " ++ f.long)
    else
      match f.short with
      | some c =>
        if [c] ∈ f.long :: seen then .error (str "Duplicate short flag: -" ++ [c])
        else flagLoop rest ([c] :: f.long :: seen)
      | none => flagLoop rest (f.long :: seen)

/-- Models `ResolvePhase::validate_command`. -/
def validateCommand (cmd : Command) : Except Str Unit :=
  match argLoop cmd.args [] 0 0 none with
  | .error e => .error e
  | .ok (cnt, pos) =>
    if cnt > 1 then .error (str "Only one varargs argument (...args) is allowed")
    else if (match pos with | some p => decide (p ≠ cmd.args.length - 1) | none => false) then
      .error (str "Varargs argument (...args) must be the last argument")
    else
      match flagLoop cmd.flags [] with
      | .error e => .error e
      | .ok _ =>
        if (trim cmd.script).isEmpty then
          .error (str "Command '" ++ cmd.names.headD (str "unknown") ++ str "' has no script body")
        else .ok ()

/-- Models `ResolvePhase::resolve`: first command whose alias list contains
the target, then validation. -/
def resolve (rf : Runfile) (target : Str) : Except Str Command :=
  match rf.commands.find? (fun cmd => decide (target ∈ cmd.names)) with
  | none => .error (str "Command '" ++ target ++ str "' not found")
  | some cmd =>
    match validateCommand cmd with
    | .error e => .error e
    | .ok _ => .ok cmd

/-! ## RunPhase (src/phases/run.rs) -/

/-- Models `HashMap::insert` on an insertion-ordered association list:
overwrite the first entry with the key in place, else append. -/
def insertKV : List (Str × Str) → Str → Str → List (Str × Str)
  | [], k, v => [(k, v)]
  | p :: ps, k, v => if p.1 = k then (k, v) :: ps else p :: insertKV ps k v

/-- Models `HashMap::get`. -/
def lookupKV (m : List (Str × Str)) (k : Str) : Option Str :=
  (m.find? (fun p => p.1 = k)).map (·.2)

/-- Models `HashSet::insert` on an insertion-ordered list. -/
def insertSet (s : List Str) (k : Str) : List Str :=
  if k ∈ s then s else s ++ [k]

/-- Fuel-driven worker for the scanning `while` loop of
`RunPhase::parse_cli_args`, with the three accumulators (positional values,
boolean-flag set, value-flag map) threaded explicitly; each step consumes one
or two CLI tokens and one unit of fuel. -/
def scanArgsFuel (flags : List CmdFlag) :
    Nat → List Str → List Str → List Str → List (Str × Str) →
    Except Str (List Str × List Str × List (Str × Str))
  | 0, _, pacc, facc, vacc => .ok (pacc, facc, vacc)
  | _ + 1, [], pacc, facc, vacc => .ok (pacc, facc, vacc)
  | fuel + 1, a :: rest, pacc, facc, vacc =>
    if startsWith (str "--") a then
      if hasChar '=' a then
        match splitTwoOn '=' a with
        | [n, v] =>
          let flagName := stripPreIf (str "--") n
          match flags.find? (fun f => f.long = flagName && f.takes_value) with
          | some f => scanArgsFuel flags fuel rest pacc facc (insertKV vacc f.long v)
          | none => .error (str "Unknown value flag: --" ++ flagName)
        | _ => scanArgsFuel flags fuel rest pacc facc vacc
      else
        let flagName := stripPreIf (str "--") a
        match flags.find? (fun f => f.long = flagName && !f.takes_value) with
        | some f => scanArgsFuel flags fuel rest pacc (insertSet facc f.long) vacc
        | none => .error (str "Unknown flag: --" ++ flagName)
    else if startsWith ['-'] a && byteLen a = 2 then
      match (a.drop 1).head? with
      | some shortChar =>
        match flags.find? (fun f => f.short = some shortChar) with
        | some f =>
          if f.takes_value then
            match rest with
            | v :: rest2 => scanArgsFuel flags fuel rest2 pacc facc (insertKV vacc f.long v)
            | [] => .error (str "Flag -" ++ [shortChar] ++ str " requires a value")
          else scanArgsFuel flags fuel rest pacc (insertSet facc f.long) vacc
        | none => .error (str "Unknown short flag: -" ++ [shortChar])
      | none => scanArgsFuel flags fuel rest (pacc ++ [a]) facc vacc
    else scanArgsFuel flags fuel rest (pacc ++ [a]) facc vacc

/-- The scanning `while` loop of `RunPhase::parse_cli_args`. -/
def scanArgs (flags : List CmdFlag) (cliArgs : List Str) :
    Except Str (List Str × List Str × List (Str × Str)) :=
  scanArgsFuel flags (cliArgs.length + 1) cliArgs [] [] []

/-- The varargs fix-up at the end of `RunPhase::parse_cli_args`: when a
varargs argument is declared and more positionals than its position were
supplied, `split_off` the tail and push its single-space join. -/
def fixVarargs (args : List Argument) (provided : List Str) : List Str :=
  match args.find? (·.is_varargs) with
  | none => provided
  | some va =>
    let p := args.findIdx (fun a => a.name = va.name)
    if provided.length > p then provided.take p ++ [joinSep [' '] (provided.drop p)]
    else provided

/-- Models `RunPhase::parse_cli_args`. -/
def parseCliArgs (cmd : Command) (cliArgs : List Str) :
    Except Str (List Str × List Str × List (Str × Str)) :=
  match scanArgs cmd.flags cliArgs with
  | .error e => .error e
  | .ok (p, fl, vals) => .ok (fixVarargs cmd.args p, fl, vals)

/-- The loop of `RunPhase::validate_required_args` (the index of each
required argument is looked up by name in the full argument list). -/
def vraLoop (allArgs : List Argument) (provided : List Str) : List Argument → Except Str Unit
  | [] => .ok ()
  | a :: rest =>
    if !a.optional then
      if allArgs.findIdx (fun x => x.name = a.name) ≥ provided.length then
        .error (str "Required argument '" ++ a.name ++ str "' not provided")
      else vraLoop allArgs provided rest
    else vraLoop allArgs provided rest

/-- Models `RunPhase::validate_required_args`. -/
def validateRequiredArgs (cmd : Command) (provided : List Str) : Except Str Unit :=
  vraLoop cmd.args provided cmd.args

/-- The argument-value environment loop of `RunPhase::run` (`UPPER` key then
original-case key for each bound positional). -/
def argEnv (provided : List Str) : List Argument → Nat → List (Str × Str) → List (Str × Str)
  | [], _, env => env
  | a :: rest, i, env =>
    match provided.get? i with
    | some v => argEnv provided rest (i + 1) (insertKV (insertKV env (upperStr a.name) v) a.name v)
    | none => argEnv provided rest (i + 1) env

/-- The flag environment loop of `RunPhase::run`: a value flag sets
`UPPER ↦ value` and `long ↦ --long=value`; a matched boolean flag sets
`UPPER ↦ true` and `long ↦ -short` when the flag declares a short form,
else `long ↦ --long`. -/
def flagEnv (pflags : List Str) (vals : List (Str × Str)) :
    List CmdFlag → List (Str × Str) → List (Str × Str)
  | [], env => env
  | f :: rest, env =>
    match lookupKV vals f.long with
    | some v =>
      flagEnv pflags vals rest
        (insertKV (insertKV env (upperStr f.long) v) f.long (str "--" ++ f.long ++ '=' :: v))
    | none =>
      if f.long ∈ pflags then
        let flagString := match f.short with | some c => ['-', c] | none => str "--" ++ f.long
        flagEnv pflags vals rest
          (insertKV (insertKV env (upperStr f.long) (str "true")) f.long flagString)
      else flagEnv pflags vals rest env

/-- Models `RunPhase::run` up to (and excluding) the `execute_script` call:
the fully assembled environment map of a successful binding, or the binding
error. -/
def runBind (cmd : Command) (cliArgs : List Str) : Except Str (List (Str × Str)) :=
  match parseCliArgs cmd cliArgs with
  | .error e => .error e
  | .ok (provided, pflags, vals) =>
    match validateRequiredArgs cmd provided with
    | .error e => .error e
    | .ok _ => .ok (flagEnv pflags vals cmd.flags (argEnv provided cmd.args 0 []))

/-! ## CLI dispatch (src/main.rs and src/pipeline.rs) -/

/-- The two stream modes of `RunPhase::run` (`OutputMode` in run.rs). -/
inductive OutputMode where
  | Inherit
  | Capture
deriving DecidableEq, Repr

/-- What `fn main` decides to do with its argument vector. -/
inductive MainAction where
  | showHelp
  | executeCommand (name : Str) (cliArgs : List Str) (mode : OutputMode)
deriving DecidableEq, Repr

/-- Models `fn main` (src/main.rs): with fewer than two argv entries it shows
help; otherwise it calls `Pipeline::execute_command(args[1], args[2..])`,
and `Pipeline::execute_command` (src/pipeline.rs) invokes `RunPhase::run`
with `OutputMode::Capture`.  (`Pipeline::execute_command_inherit`, the
variant using `OutputMode::Inherit`, exists but is never called by main.) -/
def mainDispatch (argv : List Str) : MainAction :=
  if argv.length < 2 then .showHelp
  else .executeCommand (argv.getD 1 []) (argv.drop 2) .Capture

/-! ## Decidable equality for `Except` results -/

instance {ε α : Type} [DecidableEq ε] [DecidableEq α] : DecidableEq (Except ε α)
  | .error e, .error f =>
    if h : e = f then .isTrue (by rw [h]) else .isFalse (fun hh => h (Except.error.inj hh))
  | .error _, .ok _ => .isFalse (fun hh => Except.noConfusion hh)
  | .ok _, .error _ => .isFalse (fun hh => Except.noConfusion hh)
  | .ok x, .ok y =>
    if h : x = y then .isTrue (by rw [h]) else .isFalse (fun hh => h (Except.ok.inj hh))

/-! ## Concrete commands used by the claim theorems -/

/-- A command whose only flag is `-r, --release` (boolean), as in the
`test_parse_cli_args_short_flag` fixture of run.rs. -/
def releaseCmd : Command :=
  { names := [str "test"], description := none, group := none, args := [],
    flags := [⟨some 'r', str "release", false, none, none⟩],
    script := str "echo test", shebang := str "#!/bin/sh" }

/-- A command whose only argument is the variadic `...args` produced by the
lexer (optional, varargs), as in `test args...:`. -/
def varargsOnlyCmd : Command :=
  { names := [str "test"], description := none, group := none,
    args := [⟨str "args", true, true, none⟩], flags := [],
    script := str "echo OK", shebang := str "#!/bin/sh" }

/-- A command declaring two variadic arguments `a` (position 0, not last)
and `b` (position 1, last). -/
def twoVarargsCmd : Command :=
  { names := [str "test"], description := none, group := none,
    args := [⟨str "a", true, true, none⟩, ⟨str "b", true, true, none⟩], flags := [],
    script := str "echo hi", shebang := str "#!/bin/sh" }

/-- A command declaring the bare short-only flag `-x` (long name `"x"`,
short key `'x'`, as the lexer records it) together with two arguments that
share the name `a`. -/
def dupArgsShortFlagCmd : Command :=
  { names := [str "test"], description := none, group := none,
    args := [⟨str "a", false, false, none⟩, ⟨str "a", false, false, none⟩],
    flags := [⟨some 'x', str "x", false, none, none⟩],
    script := str "echo hi", shebang := str "#!/bin/sh" }

/-- Recognises the two duplicate-flag messages of
`ResolvePhase::validate_command`. -/
def isDupFlagMsg (e : Str) : Bool :=
  startsWith (str "Duplicate flag name: ") e || startsWith (str "Duplicate short flag: -") e

/-! ## C2 -/

/-- C2 (code bug): invoked as `run hello`, `fn main` dispatches to
`Pipeline::execute_command`, which runs the resolved command with
`OutputMode::Capture` — not the inherited-stream mode the claim (and §6 of
the spec) describe.  The captured child output is discarded by main, and a
non-zero child exit surfaces as a generic `anyhow` error rather than the
child's own exit code.  (`Pipeline::execute_command_inherit` exists for the
claimed behaviour but is never called by main.) -/
theorem mainDispatch_run_uses_capture_mode :
    mainDispatch [str "run", str "hello"] =
      MainAction.executeCommand (str "hello") [] OutputMode.Capture ∧
    OutputMode.Capture ≠ OutputMode.Inherit := by
  constructor
  · rfl
  · decide

/-! ## C3 -/

/-- C3 (code bug): binding `--release` against a command that declares
`-r, --release` sets the original-case key `release` to the *declared* short
form `-r`, although the caller typed `--release`.  The claim (and the
comment in run.rs, "Use the flag the user provided (short or long)") say the
key should hold whichever literal the caller actually typed. -/
theorem runBind_bool_flag_uses_declared_short_form :
    runBind releaseCmd [str "--release"] =
      .ok [(str "RELEASE", str "true"), (str "release", str "-r")] ∧
    (str "-r" : Str) ≠ str "--release" := by
  constructor
  · rfl
  · decide

/-! ## C1 — counterexample -/

/-- C1 (counterexample): for the validated command whose single argument is
the variadic `args` at position `P = 0`, binding the empty external argument
vector succeeds, but the bound positional list is `[]` — slot `P` holds no
value at all, and the assembled environment is empty.  The claim's "slot P
holds the empty string" would instead produce `["" ]` and environment
entries `ARGS`/`args` mapped to `""`. -/
theorem parseCliArgs_zero_varargs_no_empty_string :
    parseCliArgs varargsOnlyCmd [] = .ok ([], [], []) ∧
    runBind varargsOnlyCmd [] = .ok [] := by
  constructor
  · rfl
  · rfl

/-! ## C4 — counterexample -/

/-- C4 (counterexample): the comment line `# lost` is not emitted as a
standalone Comment token (the look-ahead sees the upcoming `foo:` across the
blank line), yet the look-behind scan stops at the blank line, so `foo`'s
attached description is `none` — the comment text appears in no token,
refuting the claim that every such comment is folded into the header's
description. -/
theorem tokenize_blank_separated_comment_dropped :
    tokenize (str "# lost\n\nfoo:\n  echo hi") =
      .ok [.CommandName [str "foo"] [] [] none, .ScriptLine (str "  echo hi")] := by
  rfl

/-! ## C5 — counterexample -/

/-- C5 (counterexample): the indented line `  -x` (exactly the 2-space
parameter prefix, trimmed content a bare short flag) is lexed as a
ScriptLine, not as a Flag token — the indented classifier only recognises
the `-x, --long` and `--long` shapes. -/
theorem tokenize_indented_bare_short_flag_is_script :
    tokenize (str "cmd:\n  -x") =
      .ok [.CommandName [str "cmd"] [] [] none, .ScriptLine (str "  -x")] := by
  rfl

/-! ## C6 — counterexample -/

/-- C6 (counterexample): `twoVarargsCmd` declares a variadic argument at
position 0, which is not the last position, so the claim requires the
VarargsNotLast error; the code checks the varargs count first and reports
MultipleVarargs instead. -/
theorem validateCommand_nonlast_varargs_reports_multiple :
    validateCommand twoVarargsCmd =
      .error (str "Only one varargs argument (...args) is allowed") ∧
    resolve ⟨[], [twoVarargsCmd]⟩ (str "test") =
      .error (str "Only one varargs argument (...args) is allowed") := by
  constructor
  · rfl
  · rfl

/-! ## C10 — counterexample -/

/-- C10 (counterexample): `dupArgsShortFlagCmd` declares the self-colliding
bare short flag `-x`, yet resolution fails with DuplicateArgument (the
argument checks run first), not with a duplicate-flag error — refuting the
claim that resolution of such a command *always* fails with a duplicate-flag
error. -/
theorem resolve_short_flag_cmd_fails_with_dup_argument :
    resolve ⟨[], [dupArgsShortFlagCmd]⟩ (str "test") =
      .error (str "Duplicate argument name: a") ∧
    isDupFlagMsg (str "Duplicate argument name: a") = false := by
  constructor
  · rfl
  · decide

/-! ## C9 — leading tokens before the first CommandName -/

/-- True for the token kinds the parser can only attach to a current
command (Argument, Flag, ScriptLine, Comment). -/
def isDiscardable : Token → Bool
  | .Argument .. => true
  | .Flag .. => true
  | .ScriptLine .. => true
  | .Comment .. => true
  | _ => false

/-- Removes every Argument/Flag/ScriptLine/Comment token occurring before
the first CommandName token (GroupHeader tokens are kept). -/
def scrubLeading : List Token → List Token
  | [] => []
  | t :: ts =>
    match t with
    | .CommandName .. => t :: ts
    | .GroupHeader .. => t :: scrubLeading ts
    | _ => scrubLeading ts

theorem parseStep_discardable_noop (st : ParseState) (t : Token)
    (hcur : st.currentCommand = none) (hd : isDiscardable t = true) :
    parseStep st t = st := by
  cases t <;> simp_all [parseStep, isDiscardable]

theorem parseStep_group_currentCommand (st : ParseState) (n : Str) :
    (parseStep st (.GroupHeader n)).currentCommand = none := rfl

theorem foldl_parseStep_scrubLeading (ts : List Token) :
    ∀ st : ParseState, st.currentCommand = none →
      ts.foldl parseStep st = (scrubLeading ts).foldl parseStep st := by
  induction ts with
  | nil => intro st _; rfl
  | cons t ts ih =>
    intro st hcur
    cases t with
    | CommandName name ia ifl c => rfl
    | GroupHeader n =>
      simp only [scrubLeading, List.foldl_cons]
      exact ih (parseStep st (.GroupHeader n)) (parseStep_group_currentCommand st n)
    | Argument name o v c =>
      have h := parseStep_discardable_noop st (.Argument name o v c) hcur rfl
      simp only [scrubLeading, List.foldl_cons, h]
      exact ih st hcur
    | Flag l s tv th c =>
      have h := parseStep_discardable_noop st (.Flag l s tv th c) hcur rfl
      simp only [scrubLeading, List.foldl_cons, h]
      exact ih st hcur
    | ScriptLine l =>
      have h := parseStep_discardable_noop st (.ScriptLine l) hcur rfl
      simp only [scrubLeading, List.foldl_cons, h]
      exact ih st hcur
    | Comment l =>
      have h := parseStep_discardable_noop st (.Comment l) hcur rfl
      simp only [scrubLeading, List.foldl_cons, h]
      exact ih st hcur

/-- C9 (confirmed): `ParsePhase::parse` produces the same document whether
or not the Argument, Flag, ScriptLine and Comment tokens occurring before
the first CommandName are present — with no command under construction those
tokens leave the parser state untouched, so they are silently discarded. -/
theorem parseTokens_discards_leading_tokens (ts : List Token) :
    parseTokens ts = parseTokens (scrubLeading ts) := by
  unfold parseTokens
  rw [foldl_parseStep_scrubLeading ts parseInit rfl]

/-! ## Supporting lemmas for the binding theorems -/

theorem find?_of_exists {α : Type} (p : α → Bool) (l : List α) (h : ∃ x ∈ l, p x = true) :
    ∃ y, l.find? p = some y ∧ p y = true := by
  induction l with
  | nil => simp at h
  | cons a as ih =>
    cases hp : p a with
    | true => exact ⟨a, by simp [List.find?, hp], hp⟩
    | false =>
      obtain ⟨x, hx, hpx⟩ := h
      rcases List.mem_cons.mp hx with hxa | hxs
      · rw [hxa] at hpx; rw [hpx] at hp; cases hp
      · obtain ⟨y, hfind, hpy⟩ := ih ⟨x, hxs, hpx⟩
        exact ⟨y, by simp [List.find?, hp, hfind], hpy⟩

theorem lookupKV_insertKV (m : List (Str × Str)) (k v k2 : Str) :
    lookupKV (insertKV m k v) k2 = if k2 = k then some v else lookupKV m k2 := by
  induction m with
  | nil =>
    by_cases h : k2 = k
    · simp [insertKV, lookupKV, List.find?, h]
    · simp [insertKV, lookupKV, List.find?, h, (show ¬(k = k2) from fun hh => h hh.symm)]
  | cons p ps ih =>
    by_cases hpk : p.1 = k
    · by_cases h2 : k2 = k
      · simp [insertKV, lookupKV, List.find?, hpk, h2]
      · simp [insertKV, lookupKV, List.find?, hpk, h2,
          (show ¬(k = k2) from fun hh => h2 hh.symm),
          (show ¬(p.1 = k2) from fun hh => h2 (hh ▸ hpk))]
    · by_cases hp2 : p.1 = k2
      · simp [insertKV, lookupKV, List.find?, hpk, hp2,
          (show ¬(k2 = k) from fun hh => hpk (hp2.trans hh))]
      · simpa [insertKV, lookupKV, List.find?, hpk, hp2] using ih

theorem fixVarargs_nil (args : List Argument) : fixVarargs args [] = [] := by
  unfold fixVarargs
  cases h : args.find? (·.is_varargs) with
  | none => rfl
  | some va => simp

theorem vraLoop_all_optional (allArgs : List Argument) (provided : List Str)
    (sub : List Argument) (h : ∀ a ∈ sub, a.optional = true) :
    vraLoop allArgs provided sub = .ok () := by
  induction sub with
  | nil => rfl
  | cons a rest ih =>
    have ha := h a (List.mem_cons_self a rest)
    simp only [vraLoop, ha, Bool.not_true, Bool.false_eq_true, if_false]
    exact ih fun x hx => h x (List.mem_cons_of_mem a hx)

theorem argEnv_nil (args : List Argument) : ∀ (i : Nat) (env : List (Str × Str)),
    argEnv [] args i env = env := by
  induction args with
  | nil => intro i env; rfl
  | cons a rest ih =>
    intro i env
    show argEnv [] rest (i + 1) env = env
    exact ih (i + 1) env

theorem lookupKV_single (k v l : Str) :
    lookupKV [(k, v)] l = if k = l then some v else none := by
  by_cases h : k = l <;> simp [lookupKV, List.find?, h]

theorem flagEnv_no_output_flag (v : Str) (flags : List CmdFlag) (env : List (Str × Str))
    (h : ∀ f ∈ flags, f.long ≠ str "output") :
    flagEnv [] [(str "output", v)] flags env = env := by
  induction flags generalizing env with
  | nil => rfl
  | cons f rest ih =>
    have hf := h f (List.mem_cons_self f rest)
    have hlk : lookupKV [(str "output", v)] f.long = none := by
      rw [lookupKV_single]
      exact if_neg fun hh => hf hh.symm
    simp only [flagEnv, hlk, List.not_mem_nil, if_false, ite_false]
    exact ih env fun x hx => h x (List.mem_cons_of_mem f hx)

theorem flagEnv_with_output_flag (v : Str) (flags : List CmdFlag) (env : List (Str × Str))
    (h : ∃ f ∈ flags, f.long = str "output") :
    lookupKV (flagEnv [] [(str "output", v)] flags env) (str "OUTPUT") = some v ∧
    lookupKV (flagEnv [] [(str "output", v)] flags env) (str "output") =
      some (str "--" ++ str "output" ++ '=' :: v) := by
  induction flags generalizing env with
  | nil => simp at h
  | cons f rest ih =>
    by_cases hf : f.long = str "output"
    · have hlk : lookupKV [(str "output", v)] f.long = some v := by
        rw [lookupKV_single, if_pos hf.symm]
      simp only [flagEnv, hlk]
      by_cases hrest : ∃ g ∈ rest, g.long = str "output"
      · exact ih _ hrest
      · have hnone : ∀ g ∈ rest, g.long ≠ str "output" := by
          intro g hg hgl; exact hrest ⟨g, hg, hgl⟩
        rw [flagEnv_no_output_flag v rest _ hnone, hf]
        constructor
        · rw [lookupKV_insertKV, if_neg (by decide), lookupKV_insertKV]
          have : upperStr (str "output") = str "OUTPUT" := rfl
          rw [this, if_pos rfl]
        · rw [lookupKV_insertKV, if_pos rfl]
    · have hlk : lookupKV [(str "output", v)] f.long = none := by
        rw [lookupKV_single]
        exact if_neg fun hh => hf hh.symm
      simp only [flagEnv, hlk, List.not_mem_nil, if_false, ite_false]
      obtain ⟨g, hg, hgl⟩ := h
      rcases List.mem_cons.mp hg with hgf | hgr
      · exact absurd (hgf ▸ hgl) hf
      · exact ih env ⟨g, hgr, hgl⟩

theorem scanArgs_output_token (flags : List CmdFlag) (f : CmdFlag)
    (hfind : flags.find? (fun g => g.long = str "output" && g.takes_value) = some f) :
    scanArgs flags [str "--output=build.txt"] = .ok ([], [], [(f.long, str "build.txt")]) := by
  have h3 : splitTwoOn '=' (str "--output=build.txt") = [str "--output", str "build.txt"] := rfl
  show scanArgsFuel flags 2 [str "--output=build.txt"] [] [] [] = _
  simp only [scanArgsFuel]
  rw [if_pos (show startsWith (str "--") (str "--output=build.txt") = true from rfl),
    if_pos (show hasChar '=' (str "--output=build.txt") = true from rfl), h3]
  have h4 : stripPreIf (str "--") (str "--output") = str "output" := rfl
  simp only [h4, hfind, insertKV]

/-! ## C7 -/

/-- C7 (confirmed): for any command declaring a takes-value flag with long
name `output` (and only optional positional arguments, so that the required
check cannot interfere), binding the single external token
`--output=build.txt` succeeds and the assembled environment maps `OUTPUT` to
the literal value `build.txt` and `output` to the literal `--output=build.txt`. -/
theorem runBind_output_value_flag (cmd : Command)
    (h1 : ∃ f ∈ cmd.flags, f.long = str "output" ∧ f.takes_value = true)
    (h2 : ∀ a ∈ cmd.args, a.optional = true) :
    ∃ env, runBind cmd [str "--output=build.txt"] = .ok env ∧
      lookupKV env (str "OUTPUT") = some (str "build.txt") ∧
      lookupKV env (str "output") = some (str "--output=build.txt") := by
  obtain ⟨f, hfind, hpf⟩ :=
    find?_of_exists (fun g => g.long = str "output" && g.takes_value) cmd.flags
      (by obtain ⟨f, hf, ha, hb⟩ := h1; exact ⟨f, hf, by simp [ha, hb]⟩)
  have hfl : f.long = str "output" := by
    have := hpf
    simp only [Bool.and_eq_true, decide_eq_true_eq] at this
    exact this.1
  have hmem : f ∈ cmd.flags := List.mem_of_find?_eq_some hfind
  have hscan := scanArgs_output_token cmd.flags f hfind
  have hvra : validateRequiredArgs cmd [] = .ok () :=
    vraLoop_all_optional cmd.args [] cmd.args h2
  have hio := flagEnv_with_output_flag (str "build.txt") cmd.flags [] ⟨f, hmem, hfl⟩
  unfold runBind parseCliArgs
  simp only [hscan, fixVarargs_nil, hvra, argEnv_nil, hfl]
  exact ⟨_, rfl, hio.1, hio.2⟩

/-- A command declaring only the takes-value flag `--output=<file>`. -/
def outputFlagCmd : Command :=
  { names := [str "build"], description := none, group := none, args := [],
    flags := [⟨none, str "output", true, some (str "file"), none⟩],
    script := str "echo x", shebang := str "#!/bin/sh" }

/-- Witness for C7: the theorem applied to `outputFlagCmd`. -/
theorem runBind_output_value_flag_witness :
    ∃ env, runBind outputFlagCmd [str "--output=build.txt"] = .ok env ∧
      lookupKV env (str "OUTPUT") = some (str "build.txt") ∧
      lookupKV env (str "output") = some (str "--output=build.txt") :=
  runBind_output_value_flag outputFlagCmd
    ⟨⟨none, str "output", true, some (str "file"), none⟩, by decide, rfl, rfl⟩
    (by intro a ha; cases ha)

/-! ## C6 — amended varargs rules -/

/-- Specification of the `varargs_position` value computed by the argument
loop of `validate_command`: the index of the last variadic argument. -/
def lastVarIdx (i : Nat) (pos : Option Nat) : List Argument → Option Nat
  | [] => pos
  | a :: rest => lastVarIdx (i + 1) (if a.is_varargs then some i else pos) rest

theorem argLoop_nodup (args : List Argument) :
    ∀ (seen : List Str) (i cnt : Nat) (pos : Option Nat),
      (args.map (fun a => a.name)).Nodup → (∀ a ∈ args, a.name ∉ seen) →
      argLoop args seen i cnt pos =
        .ok (cnt + args.countP (fun a => a.is_varargs), lastVarIdx i pos args) := by
  induction args with
  | nil => intro seen i cnt pos _ _; simp [argLoop, lastVarIdx, List.countP_nil]
  | cons a rest ih =>
    intro seen i cnt pos hnd hseen
    have hna : a.name ∉ seen := hseen a (List.mem_cons_self a rest)
    have hnd' : (rest.map (fun a => a.name)).Nodup := by
      simp only [List.map_cons, List.nodup_cons] at hnd
      exact hnd.2
    have hnamem : a.name ∉ rest.map (fun a => a.name) := by
      simp only [List.map_cons, List.nodup_cons] at hnd
      exact hnd.1
    have hseen' : ∀ b ∈ rest, b.name ∉ a.name :: seen := by
      intro b hb
      simp only [List.mem_cons]
      rintro (hba | hbs)
      · exact hnamem (hba ▸ List.mem_map_of_mem (fun a => a.name) hb)
      · exact hseen b (List.mem_cons_of_mem a hb) hbs
    simp only [argLoop, if_neg hna]
    rw [ih (a.name :: seen) (i + 1) _ _ hnd' hseen']
    simp only [List.countP_cons, lastVarIdx]
    cases hv : a.is_varargs <;> (simp [hv]; try omega)

theorem lastVarIdx_none (l : List Argument) (h : ∀ a ∈ l, a.is_varargs = false) :
    ∀ (i : Nat) (pos : Option Nat), lastVarIdx i pos l = pos := by
  induction l with
  | nil => intro i pos; rfl
  | cons a rest ih =>
    intro i pos
    have ha := h a (List.mem_cons_self a rest)
    simp only [lastVarIdx, ha, Bool.false_eq_true, if_false]
    exact ih (fun b hb => h b (List.mem_cons_of_mem a hb)) (i + 1) pos

theorem lastVarIdx_single (l1 : List Argument) (va : Argument) (l2 : List Argument)
    (hva : va.is_varargs = true) (h2 : ∀ a ∈ l2, a.is_varargs = false) :
    ∀ (i : Nat) (pos : Option Nat), lastVarIdx i pos (l1 ++ va :: l2) = some (i + l1.length) := by
  induction l1 with
  | nil =>
    intro i pos
    simp only [List.nil_append, lastVarIdx, hva, if_true]
    rw [lastVarIdx_none l2 h2]
    simp
  | cons a l1 ih =>
    intro i pos
    simp only [List.cons_append, lastVarIdx, List.append_eq]
    rw [ih (i + 1)]
    congr 1
    simp
    omega

theorem countP_varargs_zero (l : List Argument) (h : ∀ a ∈ l, a.is_varargs = false) :
    l.countP (fun a => a.is_varargs) = 0 := by
  induction l with
  | nil => rfl
  | cons a rest ih =>
    have ha := h a (List.mem_cons_self a rest)
    simp [List.countP_cons, ha, ih fun b hb => h b (List.mem_cons_of_mem a hb)]

/-- C6 (amended, proved): for a command with no duplicate argument names,
exactly one variadic argument at a non-last position fails validation (and
hence resolution) with the VarargsNotLast message, and two or more variadic
arguments fail with the MultipleVarargs message — the latter check runs
first, so it also wins when a variadic additionally sits in a non-last
position. -/
theorem validateCommand_varargs_rules (cmd : Command)
    (hnd : (cmd.args.map (fun a => a.name)).Nodup) :
    (∀ l1 va l2, cmd.args = l1 ++ va :: l2 → va.is_varargs = true → l2 ≠ [] →
      (∀ a ∈ l1 ++ l2, a.is_varargs = false) →
      validateCommand cmd = .error (str "Varargs argument (...args) must be the last argument")) ∧
    (∀ l1 v1 l2 v2 l3, cmd.args = l1 ++ v1 :: (l2 ++ v2 :: l3) →
      v1.is_varargs = true → v2.is_varargs = true →
      validateCommand cmd = .error (str "Only one varargs argument (...args) is allowed")) := by
  have hloop := argLoop_nodup cmd.args [] 0 0 none hnd (by intro a _ h; cases h)
  constructor
  · intro l1 va l2 heq hva hl2 hrest
    have h1 : ∀ a ∈ l1, a.is_varargs = false := fun a ha =>
      hrest a (List.mem_append.mpr (Or.inl ha))
    have h2 : ∀ a ∈ l2, a.is_varargs = false := fun a ha =>
      hrest a (List.mem_append.mpr (Or.inr ha))
    have hcnt : cmd.args.countP (fun a => a.is_varargs) = 1 := by
      rw [heq, List.countP_append, List.countP_cons, countP_varargs_zero l1 h1,
        countP_varargs_zero l2 h2, hva]
      rfl
    have hpos : lastVarIdx 0 none cmd.args = some l1.length := by
      rw [heq, lastVarIdx_single l1 va l2 hva h2 0 none]
      simp
    have hlen : cmd.args.length = l1.length + l2.length + 1 := by
      rw [heq]; simp [List.length_append]; omega
    have hne : l1.length ≠ cmd.args.length - 1 := by
      have : 1 ≤ l2.length := List.length_pos.mpr hl2
      omega
    unfold validateCommand
    rw [hloop, hcnt, hpos]
    simp only [Nat.zero_add]
    rw [if_neg (by omega)]
    rw [if_pos (by simp [hne])]
  · intro l1 v1 l2 v2 l3 heq hv1 hv2
    have hcnt : cmd.args.countP (fun a => a.is_varargs) ≥ 2 := by
      rw [heq, List.countP_append, List.countP_cons, List.countP_append, List.countP_cons,
        hv1, hv2]
      simp
      omega
    unfold validateCommand
    rw [hloop]
    simp only [Nat.zero_add]
    rw [if_pos (by omega)]

/-- A command whose two arguments are the variadic `x` (position 0, not
last) followed by the plain argument `y`. -/
def varargsNotLastCmd : Command :=
  { names := [str "test"], description := none, group := none,
    args := [⟨str "x", true, true, none⟩, ⟨str "y", false, false, none⟩], flags := [],
    script := str "echo hi", shebang := str "#!/bin/sh" }

/-- A command declaring the two variadic arguments `x` and `y`. -/
def twoDistinctVarargsCmd : Command :=
  { names := [str "test"], description := none, group := none,
    args := [⟨str "x", true, true, none⟩, ⟨str "y", true, true, none⟩], flags := [],
    script := str "echo hi", shebang := str "#!/bin/sh" }

/-- Witness for C6: the amended theorem applied to a command with one
non-last variadic and to a command with two variadics. -/
theorem validateCommand_varargs_rules_witness :
    validateCommand varargsNotLastCmd =
      .error (str "Varargs argument (...args) must be the last argument") ∧
    validateCommand twoDistinctVarargsCmd =
      .error (str "Only one varargs argument (...args) is allowed") := by
  constructor
  · exact (validateCommand_varargs_rules varargsNotLastCmd (by decide)).1
      [] ⟨str "x", true, true, none⟩ [⟨str "y", false, false, none⟩] rfl rfl
      (by decide) (by decide)
  · exact (validateCommand_varargs_rules twoDistinctVarargsCmd (by decide)).2
      [] ⟨str "x", true, true, none⟩ [] ⟨str "y", true, true, none⟩ [] rfl rfl rfl

/-! ## C10 — amended bare short flag self-collision -/

theorem startsWith_append_self (p rest : Str) : startsWith p (p ++ rest) = true := by
  induction p with
  | nil => rfl
  | cons c cs ih => simp [startsWith, ih]

theorem flagLoop_self_collision (ch : Char) (flags : List CmdFlag) :
    ∀ seen : List Str, (∃ f ∈ flags, f.short = some ch ∧ f.long = [ch]) →
      ∃ e, flagLoop flags seen = .error e ∧ isDupFlagMsg e = true := by
  induction flags with
  | nil => intro seen h; simp at h
  | cons f rest ih =>
    intro seen h
    by_cases h1 : f.long ∈ seen
    · refine ⟨str "Duplicate flag name: " ++ f.long, by simp [flagLoop, h1], ?_⟩
      simp [isDupFlagMsg, startsWith_append_self]
    · obtain ⟨g, hg, hgs, hgl⟩ := h
      rcases List.mem_cons.mp hg with hgf | hgr
      · subst hgf
        have hcol : [ch] ∈ g.long :: seen := by
          rw [hgl]; exact List.mem_cons_self _ _
        refine ⟨str "Duplicate short flag: -" ++ [ch], ?_, ?_⟩
        · simp only [flagLoop, if_neg h1, hgs, hcol, if_pos hcol, if_true]
        · simp [isDupFlagMsg, startsWith_append_self]
      · cases hs : f.short with
        | none =>
          obtain ⟨e, he, hd⟩ := ih (f.long :: seen) ⟨g, hgr, hgs, hgl⟩
          exact ⟨e, by simp only [flagLoop, if_neg h1, hs, he], hd⟩
        | some c =>
          by_cases h2 : [c] ∈ f.long :: seen
          · refine ⟨str "Duplicate short flag: -" ++ [c], ?_, ?_⟩
            · simp only [flagLoop, if_neg h1, hs, if_pos h2]
            · simp [isDupFlagMsg, startsWith_append_self]
          · obtain ⟨e, he, hd⟩ := ih ([c] :: f.long :: seen) ⟨g, hgr, hgs, hgl⟩
            exact ⟨e, by simp only [flagLoop, if_neg h1, hs, if_neg h2, he], hd⟩

/-- C10 (amended, proved): (1) the lexer turns an inline bare short flag
`-c` (ASCII `c ≠ '-'`) into an inline flag whose long name is the
one-character string of `c` and whose short key is `c`; (2) any command
carrying such a self-colliding flag, whose argument list passes the
duplicate-name and variadic checks, fails validation (hence resolution) with
one of the two duplicate-flag errors — the long name and the short key land
in one shared key set. -/
theorem inline_bare_short_flag_self_collides :
    (∀ c : Char, c ≠ '-' → c.toNat < 0x80 →
      parseArgsAndFlags [['-', c]] = .ok ([], [([c], some c, false, none)])) ∧
    (∀ (cmd : Command) (ch : Char),
      (cmd.args.map (fun a => a.name)).Nodup →
      cmd.args.countP (fun a => a.is_varargs) ≤ 1 →
      (∀ p, lastVarIdx 0 none cmd.args = some p → p = cmd.args.length - 1) →
      (∃ f ∈ cmd.flags, f.short = some ch ∧ f.long = [ch]) →
      ∃ e, validateCommand cmd = .error e ∧ isDupFlagMsg e = true) := by
  constructor
  · intro c hc hascii
    have hbyte : byteLen ['-', c] = 2 := by
      simp [byteLen, utf8Size, hascii]
    have hnd : startsWith (str "--") ['-', c] = false := by
      simp [str, startsWith, (show ¬('-' = c) from fun h => hc h.symm)]
    have hdots1 : startsWith (str "...") ['-', c] = false := by simp [str, startsWith]
    have hdots2 : endsWith (str "...") ['-', c] = false := by
      simp [endsWith, str, startsWith]
    show parseArgsAndFlagsFuel 2 [['-', c]] = _
    simp only [parseArgsAndFlagsFuel, hdots1, hdots2, Bool.or_false,
      (show startsWith ['-'] ['-', c] = true by simp [startsWith]), hnd, hbyte,
      Bool.false_eq_true, if_false, if_true, List.drop, List.head?]
  · intro cmd ch hnd hcnt hpos hflag
    have hloop := argLoop_nodup cmd.args [] 0 0 none hnd (by intro a _ h; cases h)
    obtain ⟨e, herr, hdup⟩ := flagLoop_self_collision ch cmd.flags [] hflag
    refine ⟨e, ?_, hdup⟩
    unfold validateCommand
    rw [hloop]
    simp only [Nat.zero_add]
    rw [if_neg (by omega)]
    rw [if_neg ?hposneg]
    case hposneg =>
      cases hlv : lastVarIdx 0 none cmd.args with
      | none => simp
      | some p => simp [hpos p hlv]
    rw [herr]

/-- A command declaring only the self-colliding bare short flag `-x`
(long `"x"`, short `'x'`) with no arguments. -/
def bareShortFlagCmd : Command :=
  { names := [str "test"], description := none, group := none, args := [],
    flags := [⟨some 'x', str "x", false, none, none⟩],
    script := str "echo hi", shebang := str "#!/bin/sh" }

/-- Witness for C10: the amended theorem applied at `c = 'x'` and to
`bareShortFlagCmd`. -/
theorem inline_bare_short_flag_self_collides_witness :
    parseArgsAndFlags [['-', 'x']] = .ok ([], [(['x'], some 'x', false, none)]) ∧
    ∃ e, validateCommand bareShortFlagCmd = .error e ∧ isDupFlagMsg e = true := by
  constructor
  · exact inline_bare_short_flag_self_collides.1 'x' (by decide) (by decide)
  · exact inline_bare_short_flag_self_collides.2 bareShortFlagCmd 'x' (by decide)
      (by decide) (by decide) ⟨⟨some 'x', str "x", false, none, none⟩, by decide, rfl, rfl⟩

/-! ## C1 — amended variadic binding -/

theorem find?_varargs_last (as : List Argument) (va : Argument)
    (hva : va.is_varargs = true) (has : ∀ a ∈ as, a.is_varargs = false) :
    (as ++ [va]).find? (·.is_varargs) = some va := by
  induction as with
  | nil => simp [List.find?, hva]
  | cons a rest ih =>
    have ha := has a (List.mem_cons_self a rest)
    simp only [List.cons_append, List.find?, ha]
    exact ih fun b hb => has b (List.mem_cons_of_mem a hb)

theorem findIdx_varargs_last (as : List Argument) (va : Argument)
    (hnames : ∀ a ∈ as, a.name ≠ va.name) :
    (as ++ [va]).findIdx (fun a => a.name = va.name) = as.length := by
  induction as with
  | nil => simp [List.findIdx_cons]
  | cons a rest ih =>
    have ha := hnames a (List.mem_cons_self a rest)
    simp only [List.cons_append, List.findIdx_cons, decide_eq_true_eq, ha, if_false]
    rw [ih fun b hb => hnames b (List.mem_cons_of_mem a hb)]
    simp

theorem fixVarargs_split (as : List Argument) (va : Argument) (provided : List Str)
    (hva : va.is_varargs = true) (has : ∀ a ∈ as, a.is_varargs = false)
    (hnames : ∀ a ∈ as, a.name ≠ va.name) :
    fixVarargs (as ++ [va]) provided =
      if provided.length > as.length then
        provided.take as.length ++ [joinSep [' '] (provided.drop as.length)]
      else provided := by
  unfold fixVarargs
  simp only [find?_varargs_last as va hva has, findIdx_varargs_last as va hnames]

/-- C1 (amended, proved): for a command whose arguments are `as ++ [va]`
with `va` the unique variadic (at last position `P = as.length`, the layout
every validated command has), and any external vector the scan loop accepts
with raw positional list `raw`: when more than `P` positionals were scanned
they are joined from index `P` onward with single spaces into one value at
slot `P`; when at most `P` positionals were scanned, the positional list is
returned unchanged and slot `P` holds *no* value (not the empty string); and
the required-argument check still succeeds whenever all declared arguments
are optional (the lexer always marks a variadic optional), so a variadic
with zero trailing positionals binds successfully. -/
theorem parseCliArgs_varargs_join (cmd : Command) (as : List Argument) (va : Argument)
    (hargs : cmd.args = as ++ [va]) (hva : va.is_varargs = true)
    (has : ∀ a ∈ as, a.is_varargs = false) (hnames : ∀ a ∈ as, a.name ≠ va.name)
    (cli raw fl : List Str) (vals : List (Str × Str))
    (hscan : scanArgs cmd.flags cli = .ok (raw, fl, vals)) :
    (raw.length > as.length →
      parseCliArgs cmd cli =
        .ok (raw.take as.length ++ [joinSep [' '] (raw.drop as.length)], fl, vals)) ∧
    (raw.length ≤ as.length →
      parseCliArgs cmd cli = .ok (raw, fl, vals) ∧ raw.get? as.length = none) ∧
    ((∀ a ∈ cmd.args, a.optional = true) →
      validateRequiredArgs cmd (fixVarargs cmd.args raw) = .ok ()) := by
  have hfix := fixVarargs_split as va raw hva has hnames
  refine ⟨?_, ?_, ?_⟩
  · intro hgt
    unfold parseCliArgs
    rw [hscan]
    simp only [hargs, hfix, if_pos hgt]
  · intro hle
    constructor
    · have hngt : ¬(raw.length > as.length) := by omega
      unfold parseCliArgs
      rw [hscan]
      simp only [hargs, hfix, if_neg hngt]
    · exact List.get?_eq_none.mpr hle
  · intro hopt
    exact vraLoop_all_optional cmd.args (fixVarargs cmd.args raw) cmd.args hopt

/-- Witness for C1: the amended theorem applied to `varargsOnlyCmd`
(`P = 0`) with two supplied positionals (joined) and with zero supplied
positionals (slot 0 empty, binding still valid). -/
theorem parseCliArgs_varargs_join_witness :
    parseCliArgs varargsOnlyCmd [str "alpha", str "beta"] = .ok ([str "alpha beta"], [], []) ∧
    (parseCliArgs varargsOnlyCmd [] = .ok ([], [], []) ∧ ([] : List Str).get? 0 = none) ∧
    validateRequiredArgs varargsOnlyCmd (fixVarargs varargsOnlyCmd.args []) = .ok () := by
  refine ⟨?_, ?_, ?_⟩
  · exact (parseCliArgs_varargs_join varargsOnlyCmd [] ⟨str "args", true, true, none⟩ rfl rfl
      (by intro a h; cases h) (by intro a h; cases h)
      [str "alpha", str "beta"] [str "alpha", str "beta"] [] [] rfl).1 (by decide)
  · exact (parseCliArgs_varargs_join varargsOnlyCmd [] ⟨str "args", true, true, none⟩ rfl rfl
      (by intro a h; cases h) (by intro a h; cases h) [] [] [] [] rfl).2.1 (by decide)
  · exact (parseCliArgs_varargs_join varargsOnlyCmd [] ⟨str "args", true, true, none⟩ rfl rfl
      (by intro a h; cases h) (by intro a h; cases h) [] [] [] [] rfl).2.2 (by decide)

/-! ## Step lemmas for the tokenizer loop -/

theorem tokLoop_done (lines : List Str) (fuel i : Nat) (h : ¬ i < lines.length) :
    tokLoop lines fuel i = .ok [] := by
  cases fuel with
  | zero => rfl
  | succ fuel => simp only [tokLoop, if_neg h]

theorem tokLoop_step_cmd (lines : List Str) (fuel i : Nat) (t : Token)
    (h : i < lines.length)
    (hgroup : (isSeparatorLine (trim (lines.getD i [])) && decide (i + 2 < lines.length)
      && startsWith (str "# ") (trim (lines.getD (i + 1) []))
      && isSeparatorLine (trim (lines.getD (i + 2) []))) = false)
    (hcmd : isCommandLine (lines.getD i []) = true)
    (ht : parseLineWithComment (lines.getD i []) (lookBehindComment lines i) = .ok (some t)) :
    tokLoop lines (fuel + 1) i = (tokLoop lines fuel (i + 1)).map (t :: ·) := by
  simp only [tokLoop, if_pos h, hgroup, Bool.false_eq_true, if_false, hcmd, if_true, ht]

theorem tokLoop_step_other (lines : List Str) (fuel i : Nat) (t : Token)
    (h : i < lines.length)
    (hgroup : (isSeparatorLine (trim (lines.getD i [])) && decide (i + 2 < lines.length)
      && startsWith (str "# ") (trim (lines.getD (i + 1) []))
      && isSeparatorLine (trim (lines.getD (i + 2) []))) = false)
    (hcmd : isCommandLine (lines.getD i []) = false)
    (hcom : (startsWith ['#'] (trim (lines.getD i []))
      && !isSeparatorLine (trim (lines.getD i []))
      && !startsWith (str "#!/") (trim (lines.getD i []))
      && lookAheadCmd lines lines.length (i + 1)) = false)
    (ht : parseLine (lines.getD i []) = .ok (some t)) :
    tokLoop lines (fuel + 1) i = (tokLoop lines fuel (i + 1)).map (t :: ·) := by
  simp only [tokLoop, if_pos h, hgroup, Bool.false_eq_true, if_false, hcmd, hcom, ht]

theorem tokLoop_step_none (lines : List Str) (fuel i : Nat)
    (h : i < lines.length)
    (hgroup : (isSeparatorLine (trim (lines.getD i [])) && decide (i + 2 < lines.length)
      && startsWith (str "# ") (trim (lines.getD (i + 1) []))
      && isSeparatorLine (trim (lines.getD (i + 2) []))) = false)
    (hcmd : isCommandLine (lines.getD i []) = true)
    (ht : parseLineWithComment (lines.getD i []) (lookBehindComment lines i) = .ok none) :
    tokLoop lines (fuel + 1) i = tokLoop lines fuel (i + 1) := by
  simp only [tokLoop, if_pos h, hgroup, Bool.false_eq_true, if_false, hcmd, if_true, ht]

theorem tokLoop_skip_comment (lines : List Str) (fuel i : Nat)
    (h : i < lines.length)
    (hgroup : (isSeparatorLine (trim (lines.getD i [])) && decide (i + 2 < lines.length)
      && startsWith (str "# ") (trim (lines.getD (i + 1) []))
      && isSeparatorLine (trim (lines.getD (i + 2) []))) = false)
    (hcmd : isCommandLine (lines.getD i []) = false)
    (hcom : (startsWith ['#'] (trim (lines.getD i []))
      && !isSeparatorLine (trim (lines.getD i []))
      && !startsWith (str "#!/") (trim (lines.getD i []))
      && lookAheadCmd lines lines.length (i + 1)) = true) :
    tokLoop lines (fuel + 1) i = tokLoop lines fuel (i + 1) := by
  simp only [tokLoop, if_pos h, hgroup, Bool.false_eq_true, if_false, hcmd, hcom, if_true]

theorem splitOnChar_not_mem (ch : Char) (l : Str) (h : ch ∉ l) : splitOnChar ch l = [l] := by
  induction l with
  | nil => rfl
  | cons c cs ih =>
    have hc : ¬(c = ch) := fun hh => h (hh ▸ List.mem_cons_self c cs)
    rw [splitOnChar, if_neg hc, ih fun hh => h (List.mem_cons_of_mem c hh)]

theorem splitOnChar_append_cons (ch : Char) (l r : Str) (h : ch ∉ l) :
    splitOnChar ch (l ++ ch :: r) = l :: splitOnChar ch r := by
  induction l with
  | nil => simp [splitOnChar]
  | cons c cs ih =>
    have hc : ¬(c = ch) := fun hh => h (hh ▸ List.mem_cons_self c cs)
    simp only [List.cons_append, splitOnChar, if_neg hc, List.append_eq,
      ih fun hh => h (List.mem_cons_of_mem c hh)]

/-! ## C5 — amended indented flag shapes -/

/-- C5 (amended, proved): for every character `x` other than `','` and `'-'`
and not whitespace, the line indented by exactly the 2-space parameter
prefix whose trimmed content is the bare short flag `-x` is classified as a
ScriptLine token, not as a Flag — the indented flag recognizer only accepts
the `-x, --long[=<hint>]` and `--long[=<hint>]` shapes, and a bare `-x`
falls through to the script fallback. -/
theorem tokenize_indented_dash_char_scriptline (x : Char) (hx1 : x ≠ ',') (hx2 : x ≠ '-') (hx3 : wsChar x = false) :
    tokenize (str "cmd:\n  -" ++ [x]) =
      .ok [.CommandName [str "cmd"] [] [] none, .ScriptLine (str "  -" ++ [x])] := by
  have hxn : x ≠ '\n' := by intro h; rw [h] at hx3; simp [wsChar] at hx3
  have hxsp : ¬(' ' = x) := by intro h; rw [← h] at hx3; simp [wsChar] at hx3
  have hnl : ('\n' : Char) ∉ str "  -" ++ [x] := by
    rw [show str "  -" ++ [x] = [' ', ' ', '-', x] from rfl]
    simp only [List.mem_cons, List.not_mem_nil, or_false]
    push_neg
    exact ⟨by decide, by decide, by decide, hxn.symm⟩
  have hlines : rustLines (str "cmd:\n  -" ++ [x]) = [str "cmd:", str "  -" ++ [x]] := by
    unfold rustLines
    rw [show str "cmd:\n  -" ++ [x] = str "cmd:" ++ '\n' :: (str "  -" ++ [x]) from rfl]
    rw [splitOnChar_append_cons '\n' _ _ (by decide), splitOnChar_not_mem '\n' _ hnl]
    rw [show str "  -" ++ [x] = [' ', ' ', '-', x] from rfl]
    simp [stripCR, endsWith, startsWith, str]
  have hws : wsChar ' ' = true := by decide
  have hwd : wsChar '-' = false := by decide
  have htrim2 : trim ('-' :: [x]) = '-' :: [x] := by
    simp [trim, trimStart, trimEnd, List.dropWhile, hx3, hwd]
  have htrim1 : trim (str "  -" ++ [x]) = '-' :: [x] := by
    rw [show str "  -" ++ [x] = [' ', ' ', '-', x] from rfl]
    simp [trim, trimStart, trimEnd, List.dropWhile, hx3, hws, hwd]
  set lines : List Str := [str "cmd:", str "  -" ++ [x]] with hlinesdef
  have hl0 : lines.getD 0 [] = str "cmd:" := rfl
  have hl1 : lines.getD 1 [] = str "  -" ++ [x] := rfl
  have hlen : lines.length = 2 := rfl
  have hsep1 : isSeparatorLine (trim (str "  -" ++ [x])) = false := by
    rw [htrim1]
    simp [isSeparatorLine, htrim2, startsWith, str]
  have hcmd1 : isCommandLine (str "  -" ++ [x]) = false := by
    unfold isCommandLine
    rw [show str "  -" ++ [x] = [' ', ' ', '-', x] from rfl] at htrim1 ⊢
    rw [htrim1]
    simp [startsWith, str]
  have hparse1 : parseLine (str "  -" ++ [x]) = .ok (some (.ScriptLine (str "  -" ++ [x]))) := by
    unfold parseLine
    rw [htrim1]
    rw [if_neg (by simp), if_neg (by simp [hcmd1])]
    have hind : (startsWith (str "  ") (str "  -" ++ [x])
        && !startsWith (str "   ") (str "  -" ++ [x])
        && (!startsWith ['#'] ('-' :: [x]) || startsWith (str "#!/") ('-' :: [x]))) = true := by
      rw [show str "  -" ++ [x] = [' ', ' ', '-', x] from rfl]
      simp [startsWith, str]
    rw [if_pos hind]
    have hfind : findSub (str " # ") ('-' :: [x]) = none := by
      simp [findSub, startsWith, str]
    rw [hfind]
    simp only []
    unfold parseIndentedContent
    rw [if_neg (by simp [startsWith, str])]
    rw [if_pos (by simp [startsWith])]
    have hsplit : splitOnChar ',' ('-' :: [x]) = [['-', x]] := by
      rw [splitOnChar_not_mem ',' _ ?hmem]
      case hmem =>
        simp only [List.mem_cons, List.not_mem_nil, or_false]
        push_neg
        exact ⟨by decide, hx1.symm⟩
    rw [hsplit]
    simp only [List.map, htrim2]
    rw [if_neg (by simp)]
    rw [if_neg (by simp [startsWith, (show ¬('-' = x) from fun h => hx2 h.symm)])]
    simp [parseCommentOrScript, htrim1, startsWith]
  have hgroup0 : (isSeparatorLine (trim (lines.getD 0 [])) && decide (0 + 2 < lines.length)
      && startsWith (str "# ") (trim (lines.getD (0 + 1) []))
      && isSeparatorLine (trim (lines.getD (0 + 2) []))) = false := by
    rw [hl0]
    simp [show isSeparatorLine (trim (str "cmd:")) = false from by decide]
  have hcmd0 : isCommandLine (lines.getD 0 []) = true := by rw [hl0]; decide
  have ht0 : parseLineWithComment (lines.getD 0 []) (lookBehindComment lines 0) =
      .ok (some (.CommandName [str "cmd"] [] [] none)) := by rw [hl0]; rfl
  have hgroup1 : (isSeparatorLine (trim (lines.getD 1 [])) && decide (1 + 2 < lines.length)
      && startsWith (str "# ") (trim (lines.getD (1 + 1) []))
      && isSeparatorLine (trim (lines.getD (1 + 2) []))) = false := by
    rw [hl1]
    simp [hsep1]
  have hcom1 : (startsWith ['#'] (trim (lines.getD 1 []))
      && !isSeparatorLine (trim (lines.getD 1 []))
      && !startsWith (str "#!/") (trim (lines.getD 1 []))
      && lookAheadCmd lines lines.length (1 + 1)) = false := by
    rw [hl1, htrim1]
    simp [startsWith]
  unfold tokenize
  rw [hlines, hlen]
  rw [tokLoop_step_cmd lines 1 0 _ (by rw [hlen]; omega) hgroup0 hcmd0 ht0]
  rw [tokLoop_step_other lines 0 1 _ (by rw [hlen]; omega) hgroup1
    (by rw [hl1]; exact hcmd1) hcom1 (by rw [hl1]; exact hparse1)]
  rw [tokLoop_done lines 0 2 (by rw [hlen]; omega)]
  rfl

/-- Witness for C5: the amended theorem applied at `x = 'z'`. -/
theorem tokenize_indented_dash_char_scriptline_witness :
    tokenize (str "cmd:\n  -" ++ ['z']) =
      .ok [.CommandName [str "cmd"] [] [] none, .ScriptLine (str "  -" ++ ['z'])] :=
  tokenize_indented_dash_char_scriptline 'z' (by decide) (by decide) (by decide)

/-! ## C4 — amended comment attachment -/

theorem dropWhile_length_le (p : Char → Bool) (l : Str) :
    (l.dropWhile p).length ≤ l.length := by
  induction l with
  | nil => simp
  | cons a t ih =>
    rw [List.dropWhile_cons]
    by_cases h : p a = true
    · simp only [h, if_true]; exact Nat.le_succ_of_le ih
    · simp [h]

theorem dropWhile_eq_self_of_length (p : Char → Bool) (l : Str)
    (h : (l.dropWhile p).length = l.length) : l.dropWhile p = l := by
  induction l with
  | nil => rfl
  | cons a t ih =>
    rw [List.dropWhile_cons] at h ⊢
    by_cases hp : p a = true
    · rw [if_pos hp] at h
      have := dropWhile_length_le p t
      simp at h
      omega
    · simp [hp]

theorem trim_self_parts (c : Str) (h : trim c = c) : trimStart c = c ∧ trimEnd c = c := by
  have h1 : (trimStart c).length ≤ c.length := dropWhile_length_le wsChar c
  have h2 : (trimEnd (trimStart c)).length ≤ (trimStart c).length := by
    unfold trimEnd
    calc ((trimStart c).reverse.dropWhile wsChar).reverse.length
        = ((trimStart c).reverse.dropWhile wsChar).length := by rw [List.length_reverse]
      _ ≤ (trimStart c).reverse.length := dropWhile_length_le wsChar _
      _ = (trimStart c).length := by rw [List.length_reverse]
  have hlen : (trim c).length = c.length := by rw [h]
  have hts : trimStart c = c := by
    apply dropWhile_eq_self_of_length
    unfold trim at hlen
    unfold trimStart at h1 h2 hlen
    omega
  refine ⟨hts, ?_⟩
  rw [← hts]
  unfold trim at h
  rw [hts] at h ⊢
  exact h

theorem trim_self_last (c : Str) (h : trim c = c) (hne : c ≠ []) :
    ∃ d t, c.reverse = d :: t ∧ wsChar d = false := by
  have hte : trimEnd c = c := (trim_self_parts c h).2
  have hrev : c.reverse.dropWhile wsChar = c.reverse := by
    unfold trimEnd at hte
    have := congrArg List.reverse hte
    rwa [List.reverse_reverse] at this
  obtain ⟨d, t, hdt⟩ := List.exists_cons_of_ne_nil (by simpa using hne : c.reverse ≠ [])
  refine ⟨d, t, hdt, ?_⟩
  rw [hdt, List.dropWhile_cons] at hrev
  by_cases hd : wsChar d = true
  · rw [if_pos hd] at hrev
    have := dropWhile_length_le wsChar t
    have := congrArg List.length hrev
    simp at this
    omega
  · simpa using hd

theorem splitOnChar_ne_nil (ch : Char) (l : Str) : splitOnChar ch l ≠ [] := by
  cases l with
  | nil => simp [splitOnChar]
  | cons a t =>
    rw [splitOnChar]
    by_cases h : a = ch
    · simp [h]
    · simp only [if_neg h]
      cases splitOnChar ch t <;> simp

theorem rustLines_append_newline (l r : Str) (hl : ('\n' : Char) ∉ l) (hr : r ≠ []) :
    rustLines (l ++ '\n' :: r) = stripCR l :: rustLines r := by
  unfold rustLines
  have hne : (l ++ '\n' :: r).isEmpty = false := by
    cases l <;> simp
  have hrne : r.isEmpty = false := by
    cases r with
    | nil => exact absurd rfl hr
    | cons a t => rfl
  rw [hne, hrne]
  simp only [Bool.false_eq_true, if_false]
  rw [splitOnChar_append_cons '\n' l r hl]
  obtain ⟨p, ps, hP⟩ := List.exists_cons_of_ne_nil (splitOnChar_ne_nil '\n' r)
  rw [hP]
  rw [List.getLast?_cons_cons, List.dropLast_cons₂, List.map_cons]
  cases hG : (p :: ps).getLast? with
  | none => simp at hG
  | some t =>
    cases t with
    | nil => rfl
    | cons c cs => simp

theorem lookAheadCmd_head_irrel (a b : Str) (rest : List Str) :
    ∀ (fuel j : Nat), 1 ≤ j →
      lookAheadCmd (a :: rest) fuel j = lookAheadCmd (b :: rest) fuel j := by
  intro fuel
  induction fuel with
  | zero => intro j _; rfl
  | succ fuel ih =>
    intro j hj
    obtain ⟨j', rfl⟩ : ∃ j', j = j' + 1 := ⟨j - 1, by omega⟩
    simp only [lookAheadCmd]
    have hlen : (a :: rest).length = (b :: rest).length := by simp
    have hget : (a :: rest).getD (j' + 1) [] = (b :: rest).getD (j' + 1) [] := by
      simp [List.getD]
    rw [hlen, hget]
    by_cases h : j' + 1 < (b :: rest).length
    · rw [if_pos h, if_pos h]
      by_cases h1 : (trim ((b :: rest).getD (j' + 1) [])).isEmpty = true
      · rw [if_pos h1, if_pos h1]
        exact ih (j' + 1 + 1) (by omega)
      · rw [if_neg h1, if_neg h1]
        by_cases h2 : (startsWith ['#'] (trim ((b :: rest).getD (j' + 1) []))
            && !isSeparatorLine (trim ((b :: rest).getD (j' + 1) []))) = true
        · rw [if_pos h2, if_pos h2]
          exact ih (j' + 1 + 1) (by omega)
        · rw [if_neg h2, if_neg h2]
    · rw [if_neg h, if_neg h]

/-- C4 (amended, proved): a comment line that the look-ahead skips (because
a command header follows across blank lines and further comments) is folded
into that header's attached description only when its comment run touches
the header with no intervening blank line; a skipped comment separated from
the header by a blank line is silently dropped and appears in no token.
Parametrically in the comment text `c` (trimmed, non-empty, no newline, not
a group separator): `# c` followed by a blank line and `foo:` yields a
CommandName with no description and no Comment token, while `# c` directly
above `foo:` yields the description `c`. -/
theorem tokenize_comment_attachment_requires_adjacency (c : Str) (h1 : trim c = c) (h2 : c ≠ []) (h3 : ('\n' : Char) ∉ c)
    (hsep : isSeparatorLine ('#' :: ' ' :: c) = false) :
    tokenize (str "# " ++ c ++ str "\n\nfoo:\n  echo hi") =
      .ok [.CommandName [str "foo"] [] [] none, .ScriptLine (str "  echo hi")] ∧
    tokenize (str "# " ++ c ++ str "\nfoo:\n  echo hi") =
      .ok [.CommandName [str "foo"] [] [] (some c), .ScriptLine (str "  echo hi")] := by
  obtain ⟨d, t, hdt, hdws⟩ := trim_self_last c h1 h2
  have hts : trimStart c = c := (trim_self_parts c h1).1
  have hte : trimEnd c = c := (trim_self_parts c h1).2
  have hrevform : ('#' :: ' ' :: c).reverse = d :: (t ++ [' ', '#']) := by
    rw [List.reverse_cons, List.reverse_cons, hdt]
    simp
  have htr0 : trim ('#' :: ' ' :: c) = '#' :: ' ' :: c := by
    have key : (('#' :: ' ' :: c).reverse).dropWhile wsChar = ('#' :: ' ' :: c).reverse := by
      rw [hrevform, List.dropWhile_cons, if_neg (by simp [hdws])]
    unfold trim trimStart trimEnd
    rw [List.dropWhile_cons, if_neg (by simp [show wsChar '#' = false from rfl]), key,
      List.reverse_reverse]
  have hcr0 : stripCR ('#' :: ' ' :: c) = '#' :: ' ' :: c := by
    unfold stripCR
    rw [if_neg ?hnegcr]
    case hnegcr =>
      unfold endsWith
      rw [show (['\r'] : Str).reverse = ['\r'] from rfl, hrevform]
      simp only [startsWith, Bool.and_true]
      intro hh
      have hd : '\r' = d := by simpa using hh
      rw [← hd] at hdws
      simp [wsChar] at hdws
  have htrc : trim (' ' :: c) = c := by
    unfold trim trimStart
    rw [List.dropWhile_cons, if_pos (show wsChar ' ' = true from rfl)]
    unfold trimStart at hts
    rw [hts]
    exact hte
  have hnl0 : ('\n' : Char) ∉ '#' :: ' ' :: c := by
    simp only [List.mem_cons]
    push_neg
    exact ⟨by decide, by decide, h3⟩
  have hst0 : startsWith ['#'] (trim ('#' :: ' ' :: c)) = true := by
    rw [htr0]; simp [startsWith]
  have hsep0 : isSeparatorLine (trim ('#' :: ' ' :: c)) = false := by rw [htr0]; exact hsep
  have hcmd0 : isCommandLine ('#' :: ' ' :: c) = false := by
    unfold isCommandLine
    rw [if_pos (by rw [htr0]; simp [startsWith, str])]
  have hshb0 : startsWith (str "#!/") (trim ('#' :: ' ' :: c)) = false := by
    rw [htr0]; simp [startsWith, str]
  have hpre0 : stripPreIf ['#'] ('#' :: ' ' :: c) = ' ' :: c := by
    unfold stripPreIf
    rw [if_pos (by simp [startsWith])]
    rfl
  constructor
  · -- blank-separated: the comment is dropped
    set lines : List Str := ['#' :: ' ' :: c, [], str "foo:", str "  echo hi"] with hld
    have hlen : lines.length = 4 := rfl
    have hl0 : lines.getD 0 [] = '#' :: ' ' :: c := rfl
    have hl1 : lines.getD (0 + 1) [] = [] := rfl
    have hl2 : lines.getD (1 + 1) [] = str "foo:" := rfl
    have hl3 : lines.getD (2 + 1) [] = str "  echo hi" := rfl
    have hl4 : lines.getD (3 + 1) [] = [] := rfl
    have hl5 : lines.getD (3 + 2) [] = [] := rfl
    have hlines4 : rustLines (str "# " ++ c ++ str "\n\nfoo:\n  echo hi") = lines := by
      rw [show str "# " ++ c ++ str "\n\nfoo:\n  echo hi" =
        ('#' :: ' ' :: c) ++ '\n' :: (str "\nfoo:\n  echo hi") from by simp [str]]
      rw [rustLines_append_newline _ _ hnl0 (by decide), hcr0]
      rfl
    have hlook : lookAheadCmd lines lines.length (0 + 1) = true := by
      rw [hlen, hld]
      rw [lookAheadCmd_head_irrel ('#' :: ' ' :: c) [] [[], str "foo:", str "  echo hi"] 4 1
        (by omega)]
      decide
    have hcom0 : (startsWith ['#'] (trim (lines.getD 0 []))
        && !isSeparatorLine (trim (lines.getD 0 []))
        && !startsWith (str "#!/") (trim (lines.getD 0 []))
        && lookAheadCmd lines lines.length (0 + 1)) = true := by
      rw [hl0, hst0, hsep0, hshb0, hlook]
      rfl
    have hgroup0 : (isSeparatorLine (trim (lines.getD 0 [])) && decide (0 + 2 < lines.length)
        && startsWith (str "# ") (trim (lines.getD (0 + 1) []))
        && isSeparatorLine (trim (lines.getD (0 + 2) []))) = false := by
      rw [hl0, hsep0]
      rfl
    have hgroup1 : (isSeparatorLine (trim (lines.getD 1 [])) && decide (1 + 2 < lines.length)
        && startsWith (str "# ") (trim (lines.getD (1 + 1) []))
        && isSeparatorLine (trim (lines.getD (1 + 2) []))) = false := by
      rw [hl1, hl2, hl3, hlen]
      decide
    have hgroup2 : (isSeparatorLine (trim (lines.getD 2 [])) && decide (2 + 2 < lines.length)
        && startsWith (str "# ") (trim (lines.getD (2 + 1) []))
        && isSeparatorLine (trim (lines.getD (2 + 2) []))) = false := by
      rw [hlen]
      rw [show lines.getD 2 [] = str "foo:" from rfl, hl3, hl4]
      decide
    have hgroup3 : (isSeparatorLine (trim (lines.getD 3 [])) && decide (3 + 2 < lines.length)
        && startsWith (str "# ") (trim (lines.getD (3 + 1) []))
        && isSeparatorLine (trim (lines.getD (3 + 2) []))) = false := by
      rw [hlen]
      rw [show lines.getD 3 [] = str "  echo hi" from rfl, hl4, hl5]
      decide
    have ht1 : parseLineWithComment (lines.getD 1 []) (lookBehindComment lines 1) =
        .ok none := by
      rw [show lines.getD 1 [] = [] from rfl]
      rfl
    have hlbc2 : lookBehindComment lines 2 = none := rfl
    have ht2 : parseLineWithComment (lines.getD 2 []) (lookBehindComment lines 2) =
        .ok (some (.CommandName [str "foo"] [] [] none)) := by
      rw [show lines.getD 2 [] = str "foo:" from rfl, hlbc2]
      decide
    have hcmd3 : isCommandLine (lines.getD 3 []) = false := by
      rw [show lines.getD 3 [] = str "  echo hi" from rfl]
      decide
    have hcom3 : (startsWith ['#'] (trim (lines.getD 3 []))
        && !isSeparatorLine (trim (lines.getD 3 []))
        && !startsWith (str "#!/") (trim (lines.getD 3 []))
        && lookAheadCmd lines lines.length (3 + 1)) = false := by
      rw [show lines.getD 3 [] = str "  echo hi" from rfl]
      simp [show startsWith ['#'] (trim (str "  echo hi")) = false from by decide]
    have ht3 : parseLine (lines.getD 3 []) =
        .ok (some (.ScriptLine (str "  echo hi"))) := by
      rw [show lines.getD 3 [] = str "  echo hi" from rfl]
      decide
    unfold tokenize
    rw [hlines4, hlen]
    rw [tokLoop_skip_comment lines 3 0 (by rw [hlen]; omega) hgroup0
      (by rw [hl0]; exact hcmd0) hcom0]
    rw [tokLoop_step_none lines 2 1 (by rw [hlen]; omega) hgroup1
      (by rw [show lines.getD 1 [] = [] from rfl]; decide) ht1]
    rw [tokLoop_step_cmd lines 1 2 _ (by rw [hlen]; omega) hgroup2
      (by rw [show lines.getD 2 [] = str "foo:" from rfl]; decide) ht2]
    rw [tokLoop_step_other lines 0 3 _ (by rw [hlen]; omega) hgroup3 hcmd3 hcom3 ht3]
    rw [tokLoop_done lines 0 4 (by rw [hlen]; omega)]
    rfl
  · -- adjacent: the comment is attached
    set lines : List Str := ['#' :: ' ' :: c, str "foo:", str "  echo hi"] with hld
    have hlen : lines.length = 3 := rfl
    have hl0 : lines.getD 0 [] = '#' :: ' ' :: c := rfl
    have hlines3 : rustLines (str "# " ++ c ++ str "\nfoo:\n  echo hi") = lines := by
      rw [show str "# " ++ c ++ str "\nfoo:\n  echo hi" =
        ('#' :: ' ' :: c) ++ '\n' :: (str "foo:\n  echo hi") from by simp [str]]
      rw [rustLines_append_newline _ _ hnl0 (by decide), hcr0]
      rfl
    have hlook : lookAheadCmd lines lines.length (0 + 1) = true := by
      rw [hlen, hld]
      rw [lookAheadCmd_head_irrel ('#' :: ' ' :: c) [] [str "foo:", str "  echo hi"] 3 1
        (by omega)]
      decide
    have hcom0 : (startsWith ['#'] (trim (lines.getD 0 []))
        && !isSeparatorLine (trim (lines.getD 0 []))
        && !startsWith (str "#!/") (trim (lines.getD 0 []))
        && lookAheadCmd lines lines.length (0 + 1)) = true := by
      rw [hl0, hst0, hsep0, hshb0, hlook]
      rfl
    have hgroup0 : (isSeparatorLine (trim (lines.getD 0 [])) && decide (0 + 2 < lines.length)
        && startsWith (str "# ") (trim (lines.getD (0 + 1) []))
        && isSeparatorLine (trim (lines.getD (0 + 2) []))) = false := by
      rw [hl0, hsep0]
      rfl
    have hgroup1 : (isSeparatorLine (trim (lines.getD 1 [])) && decide (1 + 2 < lines.length)
        && startsWith (str "# ") (trim (lines.getD (1 + 1) []))
        && isSeparatorLine (trim (lines.getD (1 + 2) []))) = false := by
      rw [hlen]
      rw [show lines.getD 1 [] = str "foo:" from rfl,
        show lines.getD (1 + 1) [] = str "  echo hi" from rfl,
        show lines.getD (1 + 2) [] = [] from rfl]
      decide
    have hgroup2 : (isSeparatorLine (trim (lines.getD 2 [])) && decide (2 + 2 < lines.length)
        && startsWith (str "# ") (trim (lines.getD (2 + 1) []))
        && isSeparatorLine (trim (lines.getD (2 + 2) []))) = false := by
      rw [hlen]
      rw [show lines.getD 2 [] = str "  echo hi" from rfl,
        show lines.getD (2 + 1) [] = [] from rfl,
        show lines.getD (2 + 2) [] = [] from rfl]
      decide
    have hlb1 : lookBehind lines 1 = [c] := by
      show lookBehind lines (0 + 1) = [c]
      unfold lookBehind
      rw [show lines.getD 0 [] = '#' :: ' ' :: c from rfl, htr0]
      rw [if_pos (by simp [startsWith])]
      rw [if_neg (by rw [hsep]; simp)]
      rw [if_neg (by simp)]
      rw [hpre0, htrc]
      rfl
    have hlbc1 : lookBehindComment lines 1 = some c := by
      unfold lookBehindComment
      rw [hlb1]
      rfl
    have ht1 : parseLineWithComment (lines.getD 1 []) (lookBehindComment lines 1) =
        .ok (some (.CommandName [str "foo"] [] [] (some c))) := by
      rw [show lines.getD 1 [] = str "foo:" from rfl, hlbc1]
      rfl
    have hcmd2 : isCommandLine (lines.getD 2 []) = false := by
      rw [show lines.getD 2 [] = str "  echo hi" from rfl]
      decide
    have hcom2 : (startsWith ['#'] (trim (lines.getD 2 []))
        && !isSeparatorLine (trim (lines.getD 2 []))
        && !startsWith (str "#!/") (trim (lines.getD 2 []))
        && lookAheadCmd lines lines.length (2 + 1)) = false := by
      rw [show lines.getD 2 [] = str "  echo hi" from rfl]
      simp [show startsWith ['#'] (trim (str "  echo hi")) = false from by decide]
    have ht2 : parseLine (lines.getD 2 []) =
        .ok (some (.ScriptLine (str "  echo hi"))) := by
      rw [show lines.getD 2 [] = str "  echo hi" from rfl]
      decide
    unfold tokenize
    rw [hlines3, hlen]
    rw [tokLoop_skip_comment lines 2 0 (by rw [hlen]; omega) hgroup0
      (by rw [hl0]; exact hcmd0) hcom0]
    rw [tokLoop_step_cmd lines 1 1 _ (by rw [hlen]; omega) hgroup1
      (by rw [show lines.getD 1 [] = str "foo:" from rfl]; decide) ht1]
    rw [tokLoop_step_other lines 0 2 _ (by rw [hlen]; omega) hgroup2 hcmd2 hcom2 ht2]
    rw [tokLoop_done lines 0 3 (by rw [hlen]; omega)]
    rfl

/-- Witness for C4: the amended theorem applied to the comment text `lost`. -/
theorem tokenize_comment_attachment_requires_adjacency_witness :
    tokenize (str "# " ++ str "lost" ++ str "\n\nfoo:\n  echo hi") =
      .ok [.CommandName [str "foo"] [] [] none, .ScriptLine (str "  echo hi")] ∧
    tokenize (str "# " ++ str "lost" ++ str "\nfoo:\n  echo hi") =
      .ok [.CommandName [str "foo"] [] [] (some (str "lost")), .ScriptLine (str "  echo hi")] :=
  tokenize_comment_attachment_requires_adjacency (str "lost")
    (by decide) (by decide) (by decide) (by decide)

theorem isOkE_iff {ε α : Type} (e : Except ε α) : isOkE e = true ↔ ∃ r, e = .ok r := by
  cases e <;> simp [isOkE]

theorem isOkE_map {ε α β : Type} (f : α → β) (e : Except ε α) :
    isOkE (Except.map f e) = isOkE e := by
  cases e <;> rfl

theorem dropWhile_idem (p : Char → Bool) (l : Str) :
    (l.dropWhile p).dropWhile p = l.dropWhile p := by
  induction l with
  | nil => rfl
  | cons a t ih =>
    rw [List.dropWhile_cons]
    by_cases h : p a = true
    · rw [if_pos h]; exact ih
    · rw [if_neg h, List.dropWhile_cons, if_neg h]

theorem dropWhile_cons_head (p : Char → Bool) (a : Char) (t : Str)
    (h : List.dropWhile p (a :: t) = a :: t) : p a = false := by
  by_cases hp : p a = true
  · rw [List.dropWhile_cons, if_pos hp] at h
    have h1 := dropWhile_length_le p t
    have h2 := congrArg List.length h
    simp at h2
    omega
  · simpa using hp

theorem dropWhile_append_last (p : Char → Bool) (z : Str) (a : Char) :
    List.dropWhile p (z ++ [a]) = [] ∨ ∃ w, List.dropWhile p (z ++ [a]) = w ++ [a] := by
  induction z with
  | nil =>
    by_cases h : p a = true
    · left; simp [List.dropWhile_cons, h]
    · right; exact ⟨[], by simp [List.dropWhile_cons, h]⟩
  | cons c z' ih =>
    rw [List.cons_append, List.dropWhile_cons]
    by_cases h : p c = true
    · rw [if_pos h]; exact ih
    · right; exact ⟨c :: z', by simp [h]⟩

theorem trimEnd_shape (a : Char) (t : Str) :
    trimEnd (a :: t) = [] ∨ ∃ tb, trimEnd (a :: t) = a :: tb := by
  unfold trimEnd
  have : (a :: t).reverse = t.reverse ++ [a] := by simp
  rw [this]
  rcases dropWhile_append_last wsChar t.reverse a with h | ⟨w, hw⟩
  · left; rw [h]; rfl
  · right; exact ⟨w.reverse, by rw [hw]; simp⟩

theorem trimEnd_trimEnd (l : Str) : trimEnd (trimEnd l) = trimEnd l := by
  unfold trimEnd
  rw [List.reverse_reverse, dropWhile_idem]

theorem trim_idem (l : Str) : trim (trim l) = trim l := by
  unfold trim
  have hy : (trimStart l).dropWhile wsChar = trimStart l := by
    unfold trimStart
    exact dropWhile_idem wsChar l
  have hA : trimStart (trimEnd (trimStart l)) = trimEnd (trimStart l) := by
    cases hy' : trimStart l with
    | nil => rfl
    | cons a t =>
      have hdw : List.dropWhile wsChar (a :: t) = a :: t := by
        rw [← hy']
        exact hy
      have ha : wsChar a = false := dropWhile_cons_head wsChar a t hdw
      rcases trimEnd_shape a t with h | ⟨tb, htb⟩
      · rw [h]; rfl
      · rw [htb]
        unfold trimStart
        rw [List.dropWhile_cons, if_neg (by simp [ha])]
  rw [hA, trimEnd_trimEnd]

theorem startsWith_weaken (a : Char) (rest l : Str)
    (h : startsWith (a :: rest) l = true) : startsWith [a] l = true := by
  cases l with
  | nil => simp [startsWith] at h
  | cons c cs =>
    simp only [startsWith, Bool.and_eq_true] at h ⊢
    exact ⟨h.1, trivial⟩

/-- The command-line body the lexer parses for aliases: the trimmed line
with a trailing colon stripped (as in `parse_line` and
`parse_line_with_comment`). -/
def commandLineBody (l : Str) : Str :=
  if endsWith [':'] (trim l) then trim (stripSufIf [':'] (trim l)) else trim l

/-- A line on which the lexer fails: a non-blank command-header line that
either carries an inline same-line comment (` # `) or whose alias list is
empty (the `Command must have at least one name` error). -/
def badLine (l : Str) : Bool :=
  !(trim l).isEmpty && isCommandLine l &&
    (hasSub (str " # ") (trim l) || !isOkE (parseCommandLine (commandLineBody l)))

theorem parseCommentOrScript_ok (l : Str) : ∃ t, parseCommentOrScript l = .ok t := by
  unfold parseCommentOrScript
  by_cases h1 : startsWith ['#'] (trim l) = true
  · rw [if_pos h1]
    by_cases h2 : startsWith (str "#!/") (trim l) = true
    · rw [if_pos h2]; exact ⟨_, rfl⟩
    · rw [if_neg h2]; exact ⟨_, rfl⟩
  · rw [if_neg h1]; exact ⟨_, rfl⟩

theorem parseFlagName_ok (f : Str) : ∃ r, parseFlagName f = .ok r := by
  unfold parseFlagName
  by_cases h1 : hasChar '=' (stripPreIf (str "--") f) = true
  · rw [if_pos h1]
    cases hs : splitOnChar '=' (stripPreIf (str "--") f) with
    | nil => exact ⟨_, rfl⟩
    | cons n rest =>
      cases rest with
      | nil => exact ⟨_, rfl⟩
      | cons hint rest2 =>
        cases rest2 with
        | nil => exact ⟨_, rfl⟩
        | cons a b => exact ⟨_, rfl⟩
  · rw [if_neg h1]; exact ⟨_, rfl⟩

theorem parseArgsAndFlagsFuel_succ_cons (fuel : Nat) (p : Str) (rest : List Str) :
    parseArgsAndFlagsFuel (fuel + 1) (p :: rest) =
    (if startsWith (str "...") p || endsWith (str "...") p then
      let argName :=
        if startsWith (str "...") p then stripPreIf (str "...") p else stripSufIf (str "...") p
      match parseArgsAndFlagsFuel fuel rest with
      | .error e => .error e
      | .ok (args, flags) => .ok ((argName, true, true) :: args, flags)
    else if startsWith ['-'] p then
      match rest with
      | long :: rest2 =>
        if endsWith [','] p then
          let shortPart := stripSufIf [','] p
          let short : Option Char :=
            if startsWith ['-'] shortPart then (shortPart.drop 1).head? else none
          match parseFlagName long with
          | .error e => .error e
          | .ok (longName, takesValue, typeHint) =>
            match parseArgsAndFlagsFuel fuel rest2 with
            | .error e => .error e
            | .ok (args, flags) => .ok (args, (longName, short, takesValue, typeHint) :: flags)
        else if startsWith (str "--") p then
          match parseFlagName p with
          | .error e => .error e
          | .ok (longName, takesValue, typeHint) =>
            match parseArgsAndFlagsFuel fuel (long :: rest2) with
            | .error e => .error e
            | .ok (args, flags) => .ok (args, (longName, none, takesValue, typeHint) :: flags)
        else if byteLen p = 2 then
          match (p.drop 1).head? with
          | some c =>
            match parseArgsAndFlagsFuel fuel (long :: rest2) with
            | .error e => .error e
            | .ok (args, flags) => .ok (args, ([c], some c, false, none) :: flags)
          | none => parseArgsAndFlagsFuel fuel (long :: rest2)
        else parseArgsAndFlagsFuel fuel (long :: rest2)
      | [] =>
        if startsWith (str "--") p then
          match parseFlagName p with
          | .error e => .error e
          | .ok (longName, takesValue, typeHint) => .ok ([], [(longName, none, takesValue, typeHint)])
        else if byteLen p = 2 then
          match (p.drop 1).head? with
          | some c => .ok ([], [([c], some c, false, none)])
          | none => .ok ([], [])
        else .ok ([], [])
    else
      let q := if endsWith ['?'] p then (stripSufIf ['?'] p, true) else (p, false)
      match parseArgsAndFlagsFuel fuel rest with
      | .error e => .error e
      | .ok (args, flags) => .ok ((q.1, q.2, false) :: args, flags)) := rfl

theorem parseArgsAndFlagsFuel_ok :
    ∀ (fuel : Nat) (parts : List Str), ∃ r, parseArgsAndFlagsFuel fuel parts = .ok r := by
  intro fuel
  induction fuel with
  | zero => intro parts; exact ⟨_, rfl⟩
  | succ fuel ih =>
    intro parts
    cases parts with
    | nil => exact ⟨_, rfl⟩
    | cons p rest =>
      rw [parseArgsAndFlagsFuel_succ_cons]
      by_cases hdots : (startsWith (str "...") p || endsWith (str "...") p) = true
      · rw [if_pos hdots]
        obtain ⟨r, hr⟩ := ih rest
        rw [hr]
        exact ⟨_, rfl⟩
      · rw [if_neg hdots]
        by_cases hdash : startsWith ['-'] p = true
        · rw [if_pos hdash]
          cases rest with
          | nil =>
            dsimp only
            by_cases hdd : startsWith (str "--") p = true
            · rw [if_pos hdd]
              obtain ⟨⟨ln, tv, th⟩, hf⟩ := parseFlagName_ok p
              rw [hf]
              exact ⟨_, rfl⟩
            · rw [if_neg hdd]
              by_cases hb : byteLen p = 2
              · rw [if_pos hb]
                cases (p.drop 1).head? with
                | some c => exact ⟨_, rfl⟩
                | none => exact ⟨_, rfl⟩
              · rw [if_neg hb]
                exact ⟨_, rfl⟩
          | cons long rest2 =>
            dsimp only
            by_cases hcomma : endsWith [','] p = true
            · rw [if_pos hcomma]
              obtain ⟨⟨ln, tv, th⟩, hf⟩ := parseFlagName_ok long
              rw [hf]
              obtain ⟨r, hr⟩ := ih rest2
              rw [hr]
              exact ⟨_, rfl⟩
            · rw [if_neg hcomma]
              by_cases hdd : startsWith (str "--") p = true
              · rw [if_pos hdd]
                obtain ⟨⟨ln, tv, th⟩, hf⟩ := parseFlagName_ok p
                rw [hf]
                obtain ⟨r, hr⟩ := ih (long :: rest2)
                rw [hr]
                exact ⟨_, rfl⟩
              · rw [if_neg hdd]
                by_cases hb : byteLen p = 2
                · rw [if_pos hb]
                  cases hh : (p.drop 1).head? with
                  | some c =>
                    obtain ⟨r, hr⟩ := ih (long :: rest2)
                    rw [hr]
                    exact ⟨_, rfl⟩
                  | none => exact ih (long :: rest2)
                · rw [if_neg hb]
                  exact ih (long :: rest2)
        · rw [if_neg hdash]
          obtain ⟨r, hr⟩ := ih rest
          rw [hr]
          exact ⟨_, rfl⟩

theorem parseArgsAndFlags_ok (parts : List Str) : ∃ r, parseArgsAndFlags parts = .ok r :=
  parseArgsAndFlagsFuel_ok (parts.length + 1) parts

theorem parseFlagName_ne_error (f e : Str) : parseFlagName f ≠ .error e := by
  obtain ⟨r, hr⟩ := parseFlagName_ok f
  rw [hr]
  exact fun hcon => Except.noConfusion hcon

theorem parseCommandToken_ok_iff (trimmed : Str) (comment : Option Str) :
    isOkE (parseCommandToken trimmed comment) = true ↔
      (hasSub (str " # ") trimmed = false ∧
        isOkE (parseCommandLine
          (if endsWith [':'] trimmed then trim (stripSufIf [':'] trimmed) else trimmed)) = true) := by
  unfold parseCommandToken
  by_cases hsub : hasSub (str " # ") trimmed = true
  · simp only [hsub, if_true, isOkE]
    simp
  · have hsub' : hasSub (str " # ") trimmed = false := by
      cases hv : hasSub (str " # ") trimmed
      · rfl
      · exact absurd hv hsub
    simp only [hsub', Bool.false_eq_true, if_false]
    cases hpc : parseCommandLine
        (if endsWith [':'] trimmed then trim (stripSufIf [':'] trimmed) else trimmed) with
    | error e => simp [isOkE]
    | ok r =>
      obtain ⟨aliases, argsAndFlags⟩ := r
      simp only [isOkE]
      by_cases hemp : argsAndFlags.isEmpty = true
      · simp only [hemp, if_true, isOkE]
        simp
      · have hemp' : argsAndFlags.isEmpty = false := by
          cases hv : argsAndFlags.isEmpty
          · rfl
          · exact absurd hv hemp
        simp only [hemp', Bool.false_eq_true, if_false]
        obtain ⟨⟨ia, ifl⟩, hok⟩ := parseArgsAndFlags_ok argsAndFlags
        rw [hok]
        simp [isOkE]

theorem parseIndentedContent_ok (line contentPart : Str) (comment : Option Str) :
    ∃ t, parseIndentedContent line contentPart comment = .ok t := by
  have hpc := parseCommentOrScript_ok line
  unfold parseIndentedContent
  dsimp only
  repeat' split
  all_goals first
    | exact ⟨_, rfl⟩
    | exact hpc
    | exact absurd (by assumption) (parseFlagName_ne_error _ _)

theorem parseLine_ok_of_not_command (line : Str) (hc : isCommandLine line = false) :
    ∃ t, parseLine line = .ok t := by
  have hpc := parseCommentOrScript_ok line
  unfold parseLine
  dsimp only
  split
  · exact ⟨_, rfl⟩
  split
  · next hct => exact absurd hct (by rw [hc]; exact Bool.false_ne_true)
  split
  · exact parseIndentedContent_ok line _ _
  · exact hpc

theorem parseLineWithComment_ok_iff (l : Str) (comment : Option Str) :
    isOkE (parseLineWithComment l comment) = !badLine l := by
  unfold parseLineWithComment badLine
  dsimp only
  by_cases hemp : (trim l).isEmpty = true
  · rw [if_pos hemp, hemp]
    simp [isOkE]
  · have hemp' : (trim l).isEmpty = false := by
      cases hv : (trim l).isEmpty
      · rfl
      · exact absurd hv hemp
    rw [if_neg hemp, hemp']
    by_cases hcmd : isCommandLine l = true
    · rw [if_pos hcmd, hcmd]
      have hiff := parseCommandToken_ok_iff (trim l) comment
      have hbody : (if endsWith [':'] (trim l) then trim (stripSufIf [':'] (trim l)) else trim l)
          = commandLineBody l := rfl
      rw [hbody] at hiff
      cases hsub : hasSub (str " # ") (trim l) with
      | true =>
        have hne : ¬ isOkE (parseCommandToken (trim l) comment) = true := by
          intro hcon
          have hthis := (hiff.mp hcon).1
          rw [hsub] at hthis
          exact Bool.false_ne_true hthis.symm
        have hfalse : isOkE (parseCommandToken (trim l) comment) = false := by
          cases hv : isOkE (parseCommandToken (trim l) comment)
          · rfl
          · exact absurd hv hne
        rw [hfalse]
        simp
      | false =>
        cases hpcl : isOkE (parseCommandLine (commandLineBody l)) with
        | true =>
          have : isOkE (parseCommandToken (trim l) comment) = true := by
            refine hiff.mpr ⟨?_, ?_⟩
            · exact hsub
            · exact hpcl
          rw [this]
          simp
        | false =>
          have hne : ¬ isOkE (parseCommandToken (trim l) comment) = true := by
            intro hcon
            have := (hiff.mp hcon).2
            rw [hpcl] at this
            exact Bool.false_ne_true this
          have hfalse : isOkE (parseCommandToken (trim l) comment) = false := by
            cases hv : isOkE (parseCommandToken (trim l) comment)
            · rfl
            · exact absurd hv hne
          rw [hfalse]
          simp
    · have hcmd' : isCommandLine l = false := by
        cases hv : isCommandLine l
        · rfl
        · exact absurd hv hcmd
      rw [if_neg hcmd, hcmd']
      obtain ⟨t, ht⟩ := parseLine_ok_of_not_command l hcmd'
      rw [ht]
      simp [isOkE]

theorem isOkE_false_iff {ε α : Type} (e : Except ε α) :
    isOkE e = false ↔ ∃ err, e = .error err := by
  cases e <;> simp [isOkE]

theorem isCommandLine_false_of_hash (l : Str) (h : startsWith ['#'] (trim l) = true) :
    isCommandLine l = false := by
  unfold isCommandLine
  dsimp only
  rw [h]
  rfl

theorem badLine_false_of_hash (l : Str) (h : startsWith ['#'] (trim l) = true) :
    badLine l = false := by
  unfold badLine
  rw [isCommandLine_false_of_hash l h]
  simp

theorem badLine_false_of_not_cmd (l : Str) (h : isCommandLine l = false) :
    badLine l = false := by
  unfold badLine
  rw [h]
  simp

theorem badLine_false_of_sep (l : Str) (h : isSeparatorLine (trim l) = true) :
    badLine l = false := by
  refine badLine_false_of_hash l ?_
  unfold isSeparatorLine at h
  simp only [Bool.and_eq_true] at h
  have := h.1.1
  rw [trim_idem] at this
  exact startsWith_weaken '#' [' '] (trim l) this

theorem badLine_false_of_hashsp (l : Str) (h : startsWith (str "# ") (trim l) = true) :
    badLine l = false :=
  badLine_false_of_hash l (startsWith_weaken '#' [' '] (trim l) h)

theorem tokLoop_step_group (lines : List Str) (fuel i : Nat)
    (h : i < lines.length)
    (hgroup : (isSeparatorLine (trim (lines.getD i [])) && decide (i + 2 < lines.length)
      && startsWith (str "# ") (trim (lines.getD (i + 1) []))
      && isSeparatorLine (trim (lines.getD (i + 2) []))) = true) :
    tokLoop lines (fuel + 1) i = (tokLoop lines fuel (i + 3)).map
      (Token.GroupHeader (trim (stripPreIf (str "# ") (trim (lines.getD (i + 1) [])))) :: ·) := by
  simp only [tokLoop, if_pos h, hgroup, if_true]

theorem tokLoop_step_cmd_err (lines : List Str) (fuel i : Nat) (e : Str)
    (h : i < lines.length)
    (hgroup : (isSeparatorLine (trim (lines.getD i [])) && decide (i + 2 < lines.length)
      && startsWith (str "# ") (trim (lines.getD (i + 1) []))
      && isSeparatorLine (trim (lines.getD (i + 2) []))) = false)
    (hcmd : isCommandLine (lines.getD i []) = true)
    (ht : parseLineWithComment (lines.getD i []) (lookBehindComment lines i) = .error e) :
    tokLoop lines (fuel + 1) i = .error e := by
  simp only [tokLoop, if_pos h, hgroup, Bool.false_eq_true, if_false, hcmd, if_true, ht]

theorem tokLoop_step_other_none (lines : List Str) (fuel i : Nat)
    (h : i < lines.length)
    (hgroup : (isSeparatorLine (trim (lines.getD i [])) && decide (i + 2 < lines.length)
      && startsWith (str "# ") (trim (lines.getD (i + 1) []))
      && isSeparatorLine (trim (lines.getD (i + 2) []))) = false)
    (hcmd : isCommandLine (lines.getD i []) = false)
    (hcom : (startsWith ['#'] (trim (lines.getD i []))
      && !isSeparatorLine (trim (lines.getD i []))
      && !startsWith (str "#!/") (trim (lines.getD i []))
      && lookAheadCmd lines lines.length (i + 1)) = false)
    (ht : parseLine (lines.getD i []) = .ok none) :
    tokLoop lines (fuel + 1) i = tokLoop lines fuel (i + 1) := by
  simp only [tokLoop, if_pos h, hgroup, Bool.false_eq_true, if_false, hcmd, hcom, ht]

theorem badLine_forall_shift (lines : List Str) (i : Nat)
    (hb : badLine (lines.getD i []) = false) :
    ((∀ j, i + 1 ≤ j → j < lines.length → badLine (lines.getD j []) = false) ↔
      (∀ j, i ≤ j → j < lines.length → badLine (lines.getD j []) = false)) := by
  constructor
  · intro h j hij hjn
    rcases Nat.eq_or_lt_of_le hij with heq | hlt
    · rw [← heq]; exact hb
    · exact h j hlt hjn
  · intro h j hij hjn
    exact h j (by omega) hjn

theorem badLine_forall_shift3 (lines : List Str) (i : Nat)
    (hb0 : badLine (lines.getD i []) = false)
    (hb1 : badLine (lines.getD (i + 1) []) = false)
    (hb2 : badLine (lines.getD (i + 2) []) = false) :
    ((∀ j, i + 3 ≤ j → j < lines.length → badLine (lines.getD j []) = false) ↔
      (∀ j, i ≤ j → j < lines.length → badLine (lines.getD j []) = false)) := by
  constructor
  · intro h j hij hjn
    have hcase : j = i ∨ j = i + 1 ∨ j = i + 2 ∨ i + 3 ≤ j := by omega
    rcases hcase with rfl | rfl | rfl | hge
    · exact hb0
    · exact hb1
    · exact hb2
    · exact h j hge hjn
  · intro h j hij hjn
    exact h j (by omega) hjn

theorem tokLoop_ok_iff (lines : List Str) :
    ∀ (fuel i : Nat), lines.length ≤ fuel + i →
      (isOkE (tokLoop lines fuel i) = true ↔
        ∀ j, i ≤ j → j < lines.length → badLine (lines.getD j []) = false) := by
  intro fuel
  induction fuel with
  | zero =>
    intro i hle
    constructor
    · intro _ j hij hjn
      omega
    · intro _
      rfl
  | succ fuel ih =>
    intro i hle
    by_cases hlt : i < lines.length
    case neg =>
      rw [tokLoop_done lines (fuel + 1) i hlt]
      constructor
      · intro _ j hij hjn
        omega
      · intro _
        rfl
    case pos =>
      by_cases hgroup : (isSeparatorLine (trim (lines.getD i [])) && decide (i + 2 < lines.length)
          && startsWith (str "# ") (trim (lines.getD (i + 1) []))
          && isSeparatorLine (trim (lines.getD (i + 2) []))) = true
      · rw [tokLoop_step_group lines fuel i hlt hgroup, isOkE_map]
        simp only [Bool.and_eq_true, decide_eq_true_eq] at hgroup
        have hb0 : badLine (lines.getD i []) = false :=
          badLine_false_of_sep _ hgroup.1.1.1
        have hb1 : badLine (lines.getD (i + 1) []) = false :=
          badLine_false_of_hashsp _ hgroup.1.2
        have hb2 : badLine (lines.getD (i + 2) []) = false :=
          badLine_false_of_sep _ hgroup.2
        rw [ih (i + 3) (by omega)]
        exact badLine_forall_shift3 lines i hb0 hb1 hb2
      · have hgroup' : (isSeparatorLine (trim (lines.getD i []))
            && decide (i + 2 < lines.length)
            && startsWith (str "# ") (trim (lines.getD (i + 1) []))
            && isSeparatorLine (trim (lines.getD (i + 2) []))) = false := by
          cases hv : (isSeparatorLine (trim (lines.getD i []))
              && decide (i + 2 < lines.length)
              && startsWith (str "# ") (trim (lines.getD (i + 1) []))
              && isSeparatorLine (trim (lines.getD (i + 2) [])))
          · rfl
          · exact absurd hv hgroup
        by_cases hcmd : isCommandLine (lines.getD i []) = true
        · have hok := parseLineWithComment_ok_iff (lines.getD i []) (lookBehindComment lines i)
          cases hbad : badLine (lines.getD i []) with
          | true =>
            rw [hbad] at hok
            simp only [Bool.not_true] at hok
            obtain ⟨e, he⟩ := (isOkE_false_iff _).mp hok
            rw [tokLoop_step_cmd_err lines fuel i e hlt hgroup' hcmd he]
            constructor
            · intro hcon
              exact absurd hcon (by simp [isOkE])
            · intro hall
              have := hall i (le_refl i) hlt
              rw [this] at hbad
              exact absurd hbad (by simp)
          | false =>
            rw [hbad] at hok
            simp only [Bool.not_false] at hok
            obtain ⟨t, ht⟩ := (isOkE_iff _).mp hok
            cases t with
            | none =>
              rw [tokLoop_step_none lines fuel i hlt hgroup' hcmd ht]
              rw [ih (i + 1) (by omega)]
              exact badLine_forall_shift lines i hbad
            | some tok =>
              rw [tokLoop_step_cmd lines fuel i tok hlt hgroup' hcmd ht, isOkE_map]
              rw [ih (i + 1) (by omega)]
              exact badLine_forall_shift lines i hbad
        · have hcmd' : isCommandLine (lines.getD i []) = false := by
            cases hv : isCommandLine (lines.getD i [])
            · rfl
            · exact absurd hv hcmd
          have hbad : badLine (lines.getD i []) = false := badLine_false_of_not_cmd _ hcmd'
          by_cases hcom : (startsWith ['#'] (trim (lines.getD i []))
              && !isSeparatorLine (trim (lines.getD i []))
              && !startsWith (str "#!/") (trim (lines.getD i []))
              && lookAheadCmd lines lines.length (i + 1)) = true
          · rw [tokLoop_skip_comment lines fuel i hlt hgroup' hcmd' hcom]
            rw [ih (i + 1) (by omega)]
            exact badLine_forall_shift lines i hbad
          · have hcom' : (startsWith ['#'] (trim (lines.getD i []))
                && !isSeparatorLine (trim (lines.getD i []))
                && !startsWith (str "#!/") (trim (lines.getD i []))
                && lookAheadCmd lines lines.length (i + 1)) = false := by
              cases hv : (startsWith ['#'] (trim (lines.getD i []))
                  && !isSeparatorLine (trim (lines.getD i []))
                  && !startsWith (str "#!/") (trim (lines.getD i []))
                  && lookAheadCmd lines lines.length (i + 1))
              · rfl
              · exact absurd hv hcom
            obtain ⟨t, ht⟩ := parseLine_ok_of_not_command (lines.getD i []) hcmd'
            cases t with
            | none =>
              rw [tokLoop_step_other_none lines fuel i hlt hgroup' hcmd' hcom' ht]
              rw [ih (i + 1) (by omega)]
              exact badLine_forall_shift lines i hbad
            | some tok =>
              rw [tokLoop_step_other lines fuel i tok hlt hgroup' hcmd' hcom' ht, isOkE_map]
              rw [ih (i + 1) (by omega)]
              exact badLine_forall_shift lines i hbad

theorem getD_mem_of_lt {α : Type} (l : List α) (j : Nat) (d : α) (h : j < l.length) :
    l.getD j d ∈ l := by
  induction l generalizing j with
  | nil => simp at h
  | cons a as ih =>
    cases j with
    | zero => exact List.mem_cons_self _ _
    | succ j => exact List.mem_cons_of_mem _ (ih j (by simpa using h))

theorem getD_eq_get_of_lt {α : Type} (l : List α) (d : α) (j : Nat) (h : j < l.length) :
    l.getD j d = l.get ⟨j, h⟩ := by
  induction l generalizing j with
  | nil => simp at h
  | cons a as ih =>
    cases j with
    | zero => rfl
    | succ j => exact ih j (by simpa using h)

/-- **C8** (confirmed): the lexer fails on an input exactly when some line of
it is a "bad header": a non-blank line classified as a command header that
either carries an inline same-line comment (` # `) or whose header body fails
`parse_command_line` — which rejects precisely an empty alias list with the
`Command must have at least one name` error. Every other input is fully
classified and `tokenize` returns `Ok`. -/
theorem tokenize_error_iff_bad_header (content : Str) :
    (∃ e, tokenize content = .error e) ↔ ∃ l ∈ rustLines content, badLine l = true := by
  unfold tokenize
  rw [← isOkE_false_iff]
  have hiff := tokLoop_ok_iff (rustLines content) (rustLines content).length 0 (by omega)
  constructor
  · intro hfalse
    have hnot : ¬ (∀ j, 0 ≤ j → j < (rustLines content).length →
        badLine ((rustLines content).getD j []) = false) := by
      intro hall
      exact absurd (hiff.mpr hall) (by rw [hfalse]; exact Bool.false_ne_true)
    push_neg at hnot
    obtain ⟨j, _, hjlen, hjbad⟩ := hnot
    refine ⟨(rustLines content).getD j [], getD_mem_of_lt _ j [] hjlen, ?_⟩
    cases hv : badLine ((rustLines content).getD j [])
    · exact absurd hv hjbad
    · rfl
  · intro ⟨l, hmem, hbad⟩
    cases hv : isOkE (tokLoop (rustLines content) (rustLines content).length 0)
    · rfl
    · exfalso
      obtain ⟨n, hn⟩ := List.mem_iff_get.mp hmem
      have hall := hiff.mp hv
      have := hall n.val (by omega) n.isLt
      rw [getD_eq_get_of_lt _ [] n.val n.isLt] at this
      rw [hn] at this
      rw [this] at hbad
      exact Bool.false_ne_true hbad

theorem parseCommandLine_error_is_no_alias (line : Str) :
    isOkE (parseCommandLine line) = false ↔
      parseCommandLine line = .error (str "Command must have at least one name") := by
  unfold parseCommandLine
  dsimp only
  split
  · simp [isOkE]
  · simp [isOkE]
